import Mathlib

/-!
Verification development for the script execution control plane
(python-scripts-api).  The definitions below are shallow embeddings of the
source modules:

* `src/python_script_api/runner.py` and `src/quant_script_api/runner.py`
  (run lifecycle: RunRecord, start, watch, stop, reconciliation, log tailing);
* `src/quant_script_api/registry.py` (script scanning and safe resolution);
* `src/python_script_api/jwt.py` (HS256 JWT encode and verify);
* `src/quant_script_api/auth.py` (scope checking).

Machine integers are modelled as Nat and Int with explicit reductions where
overflow matters; fallible code returns Option or Except; RFC 3339 timestamp
strings are abstracted to Nat instants (only presence and ordering of
timestamps matter to the claims).
-/

set_option maxRecDepth 100000

namespace ScriptApi

/-! ## Run Manager data model (runner.py) -/

/-- Status values of a run, the string field status of class RunRecord in
runner.py (section 3 of the spec lists the same seven values). -/
inductive Status where
  | starting
  | running
  | stopping
  | succeeded
  | failed
  | stopped
  | terminated
deriving DecidableEq, Repr

/-- Terminal statuses in the sense of spec invariant 1: succeeded, failed,
stopped, terminated. -/
def Status.isTerminal : Status → Bool
  | .succeeded => true
  | .failed => true
  | .stopped => true
  | .terminated => true
  | _ => false

/-- The RunRecord dataclass of runner.py.  The ephemeral child handle
field _process is modelled as an optional numeric handle procHandle; the two
ephemeral open file objects are tracked separately where a claim needs them.
Timestamps are abstract Nat instants, null timestamps are none. -/
structure RunRecord where
  run_id : String
  script : String
  argv : List String
  status : Status
  pid : Option Nat
  return_code : Option Int
  created_at : Nat
  started_at : Option Nat
  finished_at : Option Nat
  stdout_path : String
  stderr_path : String
  error : Option String
  procHandle : Option Nat := none
deriving DecidableEq, Repr

/-- The record materialised by RunManager.start before spawning
(runner.py lines 218 to 231): status starting, pid, return_code,
started_at, finished_at and error all null. -/
def mkStartRecord (runId script : String) (argv : List String)
    (createdAt : Nat) (stdoutPath stderrPath : String) : RunRecord :=
  { run_id := runId
    script := script
    argv := argv
    status := .starting
    pid := none
    return_code := none
    created_at := createdAt
    started_at := none
    finished_at := none
    stdout_path := stdoutPath
    stderr_path := stderrPath
    error := none }

/-- The success path after create_subprocess_exec in RunManager.start
(runner.py lines 265 to 272): record the pid and handle, set status running
and started_at. -/
def spawnSuccess (r : RunRecord) (pid : Nat) (now : Nat) : RunRecord :=
  { r with procHandle := some pid
           pid := some pid
           status := .running
           started_at := some now }

/-- The exit branch of the watcher RunManager._watch (runner.py lines
295 to 304): on child exit with code rc, set return_code and finished_at and
pick the terminal status from the current status and rc. -/
def watchExit (r : RunRecord) (rc : Int) (now : Nat) : RunRecord :=
  { r with return_code := some rc
           finished_at := some now
           status :=
             if r.status = .stopping ∨ r.status = .stopped then .stopped
             else if rc = 0 then .succeeded
             else .failed }

/-- The failure branch of RunManager._watch (runner.py lines 286 to 291):
if awaiting the child raised, set status failed with the error and
finished_at. -/
def watchWaitFailure (r : RunRecord) (err : String) (now : Nat) : RunRecord :=
  { r with status := .failed, error := some err, finished_at := some now }

/-- Result of the locked entry section of RunManager.stop (runner.py lines
334 to 344): either the run is unknown, or the call is a no-op returning the
record unchanged, or the record moves to stopping and the stop protocol
proceeds. -/
inductive StopEntry where
  | notFound
  | noop (r : RunRecord)
  | proceed (r : RunRecord)
deriving DecidableEq, Repr

/-- The locked entry section of RunManager.stop in
src/python_script_api/runner.py lines 334 to 344: missing record returns
None; a record whose status is not running and not starting is returned
unchanged; otherwise status becomes stopping. -/
def stopEntry (found : Option RunRecord) : StopEntry :=
  match found with
  | none => .notFound
  | some r =>
      if r.status = .running ∨ r.status = .starting then
        .proceed { r with status := .stopping }
      else
        .noop r

/-- The generic exception branch of the SIGTERM delivery in RunManager.stop
(src/python_script_api/runner.py lines 356 to 361, and identically
src/quant_script_api/runner.py lines 199 to 203): only status and error are
assigned; finished_at is not touched. -/
def stopSignalFailure (r : RunRecord) (err : String) : RunRecord :=
  { r with status := .failed, error := some err }

/-- The clean grace-period exit branch of RunManager.stop (runner.py lines
376 to 380): record return_code, finished_at and status stopped. -/
def stopGraceExit (r : RunRecord) (rc : Int) (now : Nat) : RunRecord :=
  { r with return_code := some rc, finished_at := some now, status := .stopped }

/-! ## Spawn failure handler (claim C5)

The two runner variants differ in their spawn failure handler, so both are
embedded.  The surrounding state tracked here is exactly what the handler
touches: the record, whether each of the two just-opened log file handles is
still open, and whether the mutated record was persisted to the durable
store. -/

/-- State around the spawn call in RunManager.start: the record inserted at
status starting, the two log file handles opened in append mode just before
the spawn, and whether the current record state has been persisted. -/
structure SpawnContext where
  record : RunRecord
  stdoutOpen : Bool
  stderrOpen : Bool
  persisted : Bool
deriving DecidableEq, Repr

/-- The spawn failure handler of src/python_script_api/runner.py lines 256
to 263: stdout_file.close() (and only that handle), then status failed,
error, finished_at on the record, then _save_run_sync. -/
def startSpawnFailure (ctx : SpawnContext) (err : String) (now : Nat) :
    SpawnContext :=
  { ctx with
      stdoutOpen := false
      record := { ctx.record with
                    status := .failed
                    error := some err
                    finished_at := some now }
      persisted := true }

/-- The spawn failure handler of src/quant_script_api/runner.py lines 116
to 123: both stdout_file.close() and stderr_file.close(), then status
failed, error, finished_at on the record.  This variant of the manager has
no durable store at all, so the persisted flag is left as it was. -/
def startSpawnFailureQuant (ctx : SpawnContext) (err : String) (now : Nat) :
    SpawnContext :=
  { ctx with
      stdoutOpen := false
      stderrOpen := false
      record := { ctx.record with
                    status := .failed
                    error := some err
                    finished_at := some now } }

/-! ## Log tailing (runner.py read_logs and _tail_text_file)

Files are modelled as an abstract store mapping a path to an optional byte
list: none stands for a file that is missing or whose open or read raised
(the try block of _tail_text_file maps every such case to the empty
string).  The UTF-8 replacement decoding of the read bytes is an external
library call in the source, so it is a parameter here; asciiDecode below is
the concrete instance used on ASCII contents, where UTF-8 decoding is the
identity on code points. -/

/-- A durable log file store: path to optional byte content.  none models
a missing or unreadable file. -/
def FileStore : Type := String → Option (List Nat)

/-- The helper _tail_text_file of runner.py lines 438 to 450: missing or
unreadable file gives the empty string; when tail_bytes is positive the
file is seeked to max(0, size - tail_bytes) before reading to the end;
when tail_bytes is zero the seek branch is skipped and the read starts at
position zero, so the whole file is read.  Nat subtraction clamps at zero
exactly like max(0, size - tail_bytes). -/
def tailTextFile (decode : List Nat → String) (file : Option (List Nat))
    (tailBytes : Nat) : String :=
  match file with
  | none => ""
  | some data =>
      let readData := if tailBytes > 0 then data.drop (data.length - tailBytes) else data
      decode readData

/-- UTF-8 decoding with replacement, restricted to ASCII byte contents
where it is the identity on code points.  Stands in for
bytes.decode with utf-8 and errors replace in the claims that evaluate
concrete ASCII log contents. -/
def asciiDecode (bs : List Nat) : String :=
  String.mk (bs.map Char.ofNat)

/-- RunManager.read_logs of runner.py lines 421 to 435: unknown run gives
None; tail_bytes is clamped with max(0, tail_bytes); the stdout entry is
added when stream is stdout or both, then the stderr entry when stream is
stderr or both; any other stream value selects nothing and the result is
the empty dict. -/
def readLogs (decode : List Nat → String) (fs : FileStore)
    (runs : String → Option RunRecord) (runId : String) (stream : String)
    (tailBytes : Int) : Option (List (String × String)) :=
  match runs runId with
  | none => none
  | some r =>
      let tb := tailBytes.toNat
      let stdoutPart :=
        if stream = "stdout" ∨ stream = "both" then
          [("stdout", tailTextFile decode (fs r.stdout_path) tb)]
        else []
      let stderrPart :=
        if stream = "stderr" ∨ stream = "both" then
          [("stderr", tailTextFile decode (fs r.stderr_path) tb)]
        else []
      some (stdoutPart ++ stderrPart)

/-! ## Script registry (quant_script_api/registry.py)

Paths are lists of segments of an absolute path.  The operating system
reality behind pathlib is a parameter: realpath models Path.resolve
(symlink and dot-dot elimination), and two predicates model existence and
regular-file checks.  The second expanduser call of the source is the
identity here because the joined candidate always starts with the segments
of the already resolved absolute root, never with a tilde. -/

/-- The filesystem surface used by resolve_script: realpath models
Path.resolve on an absolute segment list, pathExists models Path.exists
and isFile models Path.is_file. -/
structure FileSystem where
  realpath : List String → List String
  pathExists : List String → Bool
  isFile : List String → Bool

/-- A requested script path string, split into segments, with a flag for a
leading slash: joining an absolute request onto a base drops the base,
exactly like the pathlib slash operator. -/
structure ReqPath where
  absolute : Bool
  parts : List String
deriving DecidableEq, Repr

/-- Error kinds of resolve_script: spec section 4.1 distinguishes
not-under-root, wrong-extension and not-found. -/
inductive ResolveError where
  | notUnderRoot
  | wrongExtension
  | notFound
deriving DecidableEq, Repr

/-- The last path segment, the name property of pathlib (empty for the
filesystem root). -/
def lastName (p : List String) : String := p.getLast? |>.getD ""

/-- The suffix property of pathlib on a file name: the substring from the
last dot, provided that dot is neither the first nor the last character;
otherwise empty. -/
def lastDotSuffix : List Char → Option (List Char)
  | [] => none
  | c :: rest =>
      match lastDotSuffix rest with
      | some s => some s
      | none => if c = '.' then some (c :: rest) else none

/-- The pathlib suffix of a name given as a char list: the tail from the
last dot when 0 < i < len - 1 for the dot index i, else empty. -/
def pathSuffix (name : List Char) : List Char :=
  match lastDotSuffix name with
  | some s => if 2 ≤ s.length ∧ s.length < name.length then s else []
  | none => []

/-- resolve_script of src/quant_script_api/registry.py lines 52 to 61:
resolve the root, join the request (an absolute request replaces the root,
as with the pathlib slash operator), resolve the candidate, then check in
order containment under the root, the .py suffix, and existence as a
regular file. -/
def resolve_script (fs : FileSystem) (root : List String) (sp : ReqPath) :
    Except ResolveError (List String) :=
  let rroot := fs.realpath root
  let joined := if sp.absolute then sp.parts else rroot ++ sp.parts
  let candidate := fs.realpath joined
  if ¬ (rroot.isPrefixOf candidate) then .error .notUnderRoot
  else if pathSuffix (lastName candidate).data ≠ ".py".data then .error .wrongExtension
  else if ¬ (fs.pathExists candidate && fs.isFile candidate) then .error .notFound
  else .ok candidate

/-! ## JSON values (the payload universe of jwt.py and auth.py)

The source passes Python dicts through json.dumps and json.loads with
separators comma and colon (compact) and the default ensure_ascii, and
back.  The value universe modelled here covers null, booleans, integers,
strings, arrays and objects; floats are outside the model (no claim uses
them).  Objects are insertion-ordered key-value lists, as Python dicts
are; json.loads collapses duplicate keys with last-value-wins at the
first occurrence position, which buildDict below reproduces. -/

/-- The double quote character, written numerically. -/
def quoteChar : Char := Char.ofNat 34

/-- The backslash character, written numerically. -/
def backslashChar : Char := Char.ofNat 92

/-- The opening curly bracket character, written numerically. -/
def lbraceChar : Char := Char.ofNat 123

/-- The closing curly bracket character, written numerically. -/
def rbraceChar : Char := Char.ofNat 125

/-- JSON values as exchanged through json.dumps and json.loads in the
source (integer numbers only; floats are out of the modelled fragment). -/
inductive Json where
  | null
  | bool (b : Bool)
  | num (n : Int)
  | str (s : String)
  | arr (xs : List Json)
  | obj (kvs : List (String × Json))

/-- Decimal digit character for a value below ten. -/
def digitChar (n : Nat) : Char := Char.ofNat (48 + n)

/-- Decimal digits with explicit recursion fuel (structural, so that the
kernel can evaluate it; the wrapper below always supplies enough). -/
def natDigitsFuel : Nat → Nat → List Char
  | 0, _ => []
  | fuel + 1, n =>
      if n < 10 then [digitChar n]
      else natDigitsFuel fuel (n / 10) ++ [digitChar (n % 10)]

/-- Decimal digits of a natural number, most significant first, as Python
repr renders an int. -/
def natDigits (n : Nat) : List Char := natDigitsFuel (n + 1) n

/-- Python repr of an int: optional minus sign then decimal digits. -/
def intChars (i : Int) : List Char :=
  if i < 0 then '-' :: natDigits i.natAbs else natDigits i.toNat

/-- Lowercase hexadecimal digit character for a value below sixteen. -/
def hexDigitChar (n : Nat) : Char :=
  if n < 10 then Char.ofNat (48 + n) else Char.ofNat (87 + n)

/-- Four lowercase hex digits of a value below 65536, as the json encoder
formats a unicode escape. -/
def hex4 (n : Nat) : List Char :=
  [hexDigitChar (n / 4096 % 16), hexDigitChar (n / 256 % 16),
   hexDigitChar (n / 16 % 16), hexDigitChar (n % 16)]

/-- The per-character escaping of the json encoder with ensure_ascii: the
quote and backslash get short escapes, as do backspace, tab, newline,
formfeed and return; every other character below 0x20 or above 0x7e
becomes a unicode escape, with a surrogate pair above 0xffff; characters
0x20 to 0x7e are emitted literally. -/
def escapeChar (c : Char) : List Char :=
  let n := c.toNat
  if c = quoteChar then [backslashChar, quoteChar]
  else if c = backslashChar then [backslashChar, backslashChar]
  else if n = 8 then [backslashChar, 'b']
  else if n = 9 then [backslashChar, 't']
  else if n = 10 then [backslashChar, 'n']
  else if n = 12 then [backslashChar, 'f']
  else if n = 13 then [backslashChar, 'r']
  else if n < 32 ∨ 126 < n then
    if n < 65536 then backslashChar :: 'u' :: hex4 n
    else backslashChar :: 'u' :: hex4 (55296 + (n - 65536) / 1024) ++
         backslashChar :: 'u' :: hex4 (56320 + (n - 65536) % 1024)
  else [c]

/-- Escape a whole string body for the json encoder. -/
def escapeString (s : List Char) : List Char := (s.map escapeChar).flatten

mutual

/-- Compact rendering of a JSON value: json.dumps with separators comma
and colon and the default ensure_ascii, as called in jwt.py. -/
def dumps : Json → List Char
  | .null => "null".data
  | .bool true => "true".data
  | .bool false => "false".data
  | .num i => intChars i
  | .str s => quoteChar :: escapeString s.data ++ [quoteChar]
  | .arr xs => '[' :: dumpsItems xs ++ [']']
  | .obj kvs => lbraceChar :: dumpsPairs kvs ++ [rbraceChar]

/-- Comma-joined renderings of array elements. -/
def dumpsItems : List Json → List Char
  | [] => []
  | [x] => dumps x
  | x :: y :: rest => dumps x ++ ',' :: dumpsItems (y :: rest)

/-- Comma-joined renderings of object entries, each a quoted escaped key,
a colon and the value. -/
def dumpsPairs : List (String × Json) → List Char
  | [] => []
  | [(k, v)] => quoteChar :: escapeString k.data ++ quoteChar :: ':' :: dumps v
  | (k, v) :: q :: rest =>
      (quoteChar :: escapeString k.data ++ quoteChar :: ':' :: dumps v) ++
        ',' :: dumpsPairs (q :: rest)

end

/-- One object entry as rendered inside dumpsPairs. -/
def dumpsPair (k : String) (v : Json) : List Char :=
  quoteChar :: escapeString k.data ++ quoteChar :: ':' :: dumps v

/-- JSON insignificant whitespace as accepted by json.loads. -/
def isJsonWs (c : Char) : Bool :=
  c = ' ' || c = Char.ofNat 9 || c = Char.ofNat 10 || c = Char.ofNat 13

/-- Drop leading JSON whitespace. -/
def skipWs : List Char → List Char
  | [] => []
  | c :: rest => if isJsonWs c then skipWs rest else c :: rest

/-- Decimal digit test. -/
def isDigitChar (c : Char) : Bool := 48 ≤ c.toNat && c.toNat ≤ 57

/-- Value of a decimal digit character. -/
def digitVal (c : Char) : Nat := c.toNat - 48

/-- Munch further decimal digits onto an accumulator. -/
def parseDigitsAcc (acc : Nat) : List Char → Nat × List Char
  | [] => (acc, [])
  | c :: rest =>
      if isDigitChar c then parseDigitsAcc (acc * 10 + digitVal c) rest
      else (acc, c :: rest)

/-- The JSON integer part grammar: a lone zero, or a nonzero digit
followed by more digits (json.loads rejects leading zeros, so a zero is
never continued). -/
def parseNatNum : List Char → Option (Nat × List Char)
  | [] => none
  | c :: rest =>
      if c = '0' then some (0, rest)
      else if isDigitChar c then some (parseDigitsAcc (digitVal c) rest)
      else none

/-- The signed integer part of a JSON number: optional minus then the
integer part grammar. -/
def parseIntCore : List Char → Option (Int × List Char)
  | [] => none
  | c :: rest =>
      if c = '-' then (parseNatNum rest).map (fun p => (-(p.1 : Int), p.2))
      else (parseNatNum (c :: rest)).map (fun p => ((p.1 : Int), p.2))

/-- Whether the remaining input would extend the number with a fraction
or exponent part. -/
def numContinues : List Char → Bool
  | [] => false
  | c :: _ => c = '.' || c = 'e' || c = 'E'

/-- A JSON number restricted to the integer fragment: optional minus then
integer part; a following dot or exponent letter means a float, outside
the modelled fragment, and fails here. -/
def parseNumber (cs : List Char) : Option (Int × List Char) :=
  match parseIntCore cs with
  | some (i, rest) => if numContinues rest then none else some (i, rest)
  | none => none

/-- Value of a hexadecimal digit character, either case. -/
def hexVal (c : Char) : Option Nat :=
  if 48 ≤ c.toNat ∧ c.toNat ≤ 57 then some (c.toNat - 48)
  else if 97 ≤ c.toNat ∧ c.toNat ≤ 102 then some (c.toNat - 87)
  else if 65 ≤ c.toNat ∧ c.toNat ≤ 70 then some (c.toNat - 55)
  else none

mutual

/-- The body of a JSON string after the opening quote, per the json
scanner in strict mode: a closing quote ends the string; a backslash
introduces an escape; raw control characters below 0x20 are rejected;
anything else is taken literally. -/
def parseStringBody : List Char → Option (List Char × List Char)
  | [] => none
  | c0 :: rest =>
      if c0 = quoteChar then some ([], rest)
      else if c0 = backslashChar then parseEscape rest
      else if c0.toNat < 32 then none
      else (parseStringBody rest).map (fun p => (c0 :: p.1, p.2))

/-- One escape after a backslash: the named escapes, or a unicode escape
after the letter u. -/
def parseEscape : List Char → Option (List Char × List Char)
  | [] => none
  | e :: rest2 =>
      if e = quoteChar then
        (parseStringBody rest2).map (fun p => (quoteChar :: p.1, p.2))
      else if e = backslashChar then
        (parseStringBody rest2).map (fun p => (backslashChar :: p.1, p.2))
      else if e = '/' then
        (parseStringBody rest2).map (fun p => ('/' :: p.1, p.2))
      else if e = 'b' then
        (parseStringBody rest2).map (fun p => (Char.ofNat 8 :: p.1, p.2))
      else if e = 't' then
        (parseStringBody rest2).map (fun p => (Char.ofNat 9 :: p.1, p.2))
      else if e = 'n' then
        (parseStringBody rest2).map (fun p => (Char.ofNat 10 :: p.1, p.2))
      else if e = 'f' then
        (parseStringBody rest2).map (fun p => (Char.ofNat 12 :: p.1, p.2))
      else if e = 'r' then
        (parseStringBody rest2).map (fun p => (Char.ofNat 13 :: p.1, p.2))
      else if e = 'u' then parseUnicodeEscape rest2
      else none

/-- Four hex digits after a unicode escape.  A high surrogate must be
followed by a low surrogate forming one scalar (Python would keep a lone
surrogate in the str, which has no Char counterpart, so the model rejects
it); a leading low surrogate is rejected likewise. -/
def parseUnicodeEscape : List Char → Option (List Char × List Char)
  | a :: b :: c :: d :: rest3 =>
      match hexVal a, hexVal b, hexVal c, hexVal d with
      | some x, some y, some z, some w =>
          let n := x * 4096 + y * 256 + z * 16 + w
          if 55296 ≤ n ∧ n < 56320 then parseLowSurrogate n rest3
          else if 56320 ≤ n ∧ n < 57344 then none
          else (parseStringBody rest3).map (fun p => (Char.ofNat n :: p.1, p.2))
      | _, _, _, _ => none
  | _ => none

/-- The second half of a surrogate pair: a backslash, the letter u and
four hex digits in the low surrogate range, combined with the pending
high surrogate value into one scalar. -/
def parseLowSurrogate (n : Nat) : List Char → Option (List Char × List Char)
  | b1 :: u1 :: a2 :: b2 :: c2 :: d2 :: rest4 =>
      if b1 = backslashChar ∧ u1 = 'u' then
        match hexVal a2, hexVal b2, hexVal c2, hexVal d2 with
        | some x2, some y2, some z2, some w2 =>
            let m := x2 * 4096 + y2 * 256 + z2 * 16 + w2
            if 56320 ≤ m ∧ m < 57344 then
              (parseStringBody rest4).map (fun p =>
                (Char.ofNat (65536 + (n - 55296) * 1024 + (m - 56320)) :: p.1, p.2))
            else none
        | _, _, _, _ => none
      else none
  | _ => none

end

/-- Insert a key into an insertion-ordered dict, replacing in place if the
key is present, like Python dict assignment. -/
def objInsert (kvs : List (String × Json)) (k : String) (v : Json) :
    List (String × Json) :=
  if kvs.any (fun p => p.1 = k) then
    kvs.map (fun p => if p.1 = k then (k, v) else p)
  else kvs ++ [(k, v)]

/-- Build a Python dict from parsed object pairs in order: duplicate keys
keep the first position with the last value. -/
def buildDict (ps : List (String × Json)) : List (String × Json) :=
  ps.foldl (fun acc p => objInsert acc p.1 p.2) []

/-- The continuation of the literal null after its first letter. -/
def parseNullLit : List Char → Option (Json × List Char)
  | 'u' :: 'l' :: 'l' :: r => some (.null, r)
  | _ => none

/-- The continuation of the literal true after its first letter. -/
def parseTrueLit : List Char → Option (Json × List Char)
  | 'r' :: 'u' :: 'e' :: r => some (.bool true, r)
  | _ => none

/-- The continuation of the literal false after its first letter. -/
def parseFalseLit : List Char → Option (Json × List Char)
  | 'a' :: 'l' :: 's' :: 'e' :: r => some (.bool false, r)
  | _ => none

mutual

/-- One JSON value at the scan position (whitespace already skipped), per
the json scanner: the literals null, true, false; a string after a
quote; an array after an opening square bracket; an object after an
opening curly bracket; otherwise a number.  The fuel argument bounds the
nesting and iteration depth; loads supplies enough for any input. -/
def parseValue : Nat → List Char → Option (Json × List Char)
  | 0, _ => none
  | _ + 1, [] => none
  | fuel + 1, c :: rest =>
      if c = 'n' then parseNullLit rest
      else if c = 't' then parseTrueLit rest
      else if c = 'f' then parseFalseLit rest
      else if c = quoteChar then
        (parseStringBody rest).map (fun p => (.str (String.mk p.1), p.2))
      else if c = '[' then
        match skipWs rest with
        | c1 :: r1 =>
            if c1 = ']' then some (.arr [], r1)
            else (parseItems fuel (c1 :: r1)).map (fun p => (.arr p.1, p.2))
        | [] => none
      else if c = lbraceChar then
        match skipWs rest with
        | c1 :: r1 =>
            if c1 = rbraceChar then some (.obj [], r1)
            else (parsePairs fuel (c1 :: r1)).map (fun p => (.obj (buildDict p.1), p.2))
        | [] => none
      else (parseNumber (c :: rest)).map (fun p => (.num p.1, p.2))

/-- One or more comma-separated array elements, consuming the closing
square bracket. -/
def parseItems : Nat → List Char → Option (List Json × List Char)
  | 0, _ => none
  | fuel + 1, cs =>
      match parseValue fuel (skipWs cs) with
      | some (v, r) =>
          match skipWs r with
          | c :: r2 =>
              if c = ',' then (parseItems fuel r2).map (fun p => (v :: p.1, p.2))
              else if c = ']' then some ([v], r2)
              else none
          | [] => none
      | none => none

/-- One or more comma-separated object entries, consuming the closing
curly bracket. -/
def parsePairs : Nat → List Char → Option (List (String × Json) × List Char)
  | 0, _ => none
  | fuel + 1, cs =>
      match skipWs cs with
      | q :: r0 =>
          if q = quoteChar then
            match parseStringBody r0 with
            | some (k, r1) =>
                match skipWs r1 with
                | c1 :: r2 =>
                    if c1 = ':' then
                      match parseValue fuel (skipWs r2) with
                      | some (v, r3) =>
                          match skipWs r3 with
                          | c2 :: r4 =>
                              if c2 = ',' then
                                (parsePairs fuel r4).map (fun p =>
                                  ((String.mk k, v) :: p.1, p.2))
                              else if c2 = rbraceChar then
                                some ([(String.mk k, v)], r4)
                              else none
                          | [] => none
                      | none => none
                    else none
                | [] => none
            | none => none
          else none
      | [] => none

end

/-- json.loads on a char list: skip leading whitespace, parse one value,
require only whitespace after it.  The fuel passed is always sufficient
(see parseValue_dumps). -/
def loads (cs : List Char) : Option Json :=
  match parseValue (cs.length + 1) (skipWs cs) with
  | some (v, rest) => if skipWs rest = [] then some v else none
  | none => none

/-- Keys of an object are pairwise distinct. -/
def keysUniqueB : List (String × Json) → Bool
  | [] => true
  | p :: rest => !(rest.any (fun q => q.1 = p.1)) && keysUniqueB rest

mutual

/-- Well-formed JSON values: every object at every level has pairwise
distinct keys, as any value that originated in a Python dict does. -/
def jsonWF : Json → Bool
  | .null => true
  | .bool _ => true
  | .num _ => true
  | .str _ => true
  | .arr xs => jsonListWF xs
  | .obj kvs => keysUniqueB kvs && jsonPairsWF kvs

/-- Well-formedness of each element of an array. -/
def jsonListWF : List Json → Bool
  | [] => true
  | x :: rest => jsonWF x && jsonListWF rest

/-- Well-formedness of each value of an object. -/
def jsonPairsWF : List (String × Json) → Bool
  | [] => true
  | p :: rest => jsonWF p.2 && jsonPairsWF rest

end

mutual

/-- An upper bound on the parser fuel consumed by one value (used to show
that loads always supplies enough fuel). -/
def jneed : Json → Nat
  | .null => 1
  | .bool _ => 1
  | .num _ => 1
  | .str _ => 1
  | .arr [] => 1
  | .arr (x :: xs) => 1 + itemsNeed (x :: xs)
  | .obj [] => 1
  | .obj (p :: ps) => 1 + pairsNeed (p :: ps)

/-- Fuel bound for a nonempty array item list. -/
def itemsNeed : List Json → Nat
  | [] => 0
  | x :: rest => 1 + jneed x + itemsNeed rest

/-- Fuel bound for a nonempty object entry list. -/
def pairsNeed : List (String × Json) → Nat
  | [] => 0
  | p :: rest => 1 + jneed p.2 + pairsNeed rest

end

/-- The continuation after a printed number must not extend the number:
its head is not a digit, a dot or an exponent letter.  Every continuation
the printer produces (a comma, a closing bracket, the end) satisfies
this. -/
def numSafe : List Char → Prop
  | [] => True
  | c :: _ => isDigitChar c = false ∧ c ≠ '.' ∧ c ≠ 'e' ∧ c ≠ 'E'

/-! ## Byte-level codecs used by jwt.py

UTF-8 encoding and strict decoding (str.encode and bytes decoding inside
json.loads), urlsafe base64 without padding (_b64url_encode and
_b64url_decode), SHA-256 and HMAC-SHA-256 (hashlib and hmac).  Bytes are
Nat below 256; 32-bit words are Nat reduced modulo 2 to the 32. -/

/-- UTF-8 encoding of one unicode scalar, one to four bytes. -/
def utf8EncodeChar (c : Char) : List Nat :=
  let n := c.toNat
  if n < 128 then [n]
  else if n < 2048 then [192 + n / 64, 128 + n % 64]
  else if n < 65536 then [224 + n / 4096, 128 + n / 64 % 64, 128 + n % 64]
  else [240 + n / 262144, 128 + n / 4096 % 64, 128 + n / 64 % 64, 128 + n % 64]

/-- UTF-8 encoding of a string given as chars, the str.encode of the
source. -/
def utf8Encode (s : List Char) : List Nat := (s.map utf8EncodeChar).flatten

mutual

/-- Strict UTF-8 decoding, rejecting truncated, overlong and surrogate
sequences, as the decoding inside json.loads on bytes does. -/
def utf8Decode : List Nat → Option (List Char)
  | [] => some []
  | b :: rest =>
      if b < 128 then (utf8Decode rest).map (Char.ofNat b :: ·)
      else if b < 194 then none
      else if b ≤ 223 then utf8DecodeTwo b rest
      else if b ≤ 239 then utf8DecodeThree b rest
      else if b ≤ 244 then utf8DecodeFour b rest
      else none

/-- The continuation of a two-byte UTF-8 sequence. -/
def utf8DecodeTwo (b : Nat) : List Nat → Option (List Char)
  | b2 :: rest2 =>
      if 128 ≤ b2 ∧ b2 ≤ 191 then
        (utf8Decode rest2).map (Char.ofNat ((b - 192) * 64 + (b2 - 128)) :: ·)
      else none
  | [] => none

/-- The continuation of a three-byte UTF-8 sequence, with the second-byte
range narrowed against overlong forms and surrogates. -/
def utf8DecodeThree (b : Nat) : List Nat → Option (List Char)
  | b2 :: b3 :: rest2 =>
      if ((if b = 224 then 160 else 128) ≤ b2 ∧
            b2 ≤ (if b = 237 then 159 else 191)) ∧ (128 ≤ b3 ∧ b3 ≤ 191) then
        (utf8Decode rest2).map
          (Char.ofNat ((b - 224) * 4096 + (b2 - 128) * 64 + (b3 - 128)) :: ·)
      else none
  | _ => none

/-- The continuation of a four-byte UTF-8 sequence, with the second-byte
range narrowed against overlong and out-of-range forms. -/
def utf8DecodeFour (b : Nat) : List Nat → Option (List Char)
  | b2 :: b3 :: b4 :: rest2 =>
      if ((if b = 240 then 144 else 128) ≤ b2 ∧
            b2 ≤ (if b = 244 then 143 else 191)) ∧
          (128 ≤ b3 ∧ b3 ≤ 191) ∧ (128 ≤ b4 ∧ b4 ≤ 191) then
        (utf8Decode rest2).map
          (Char.ofNat ((b - 240) * 262144 + (b2 - 128) * 4096 +
            (b3 - 128) * 64 + (b4 - 128)) :: ·)
      else none
  | _ => none

end

/-- Value of a urlsafe base64 alphabet character. -/
def b64Val (c : Char) : Option Nat :=
  let n := c.toNat
  if 65 ≤ n ∧ n ≤ 90 then some (n - 65)
  else if 97 ≤ n ∧ n ≤ 122 then some (n - 71)
  else if 48 ≤ n ∧ n ≤ 57 then some (n + 4)
  else if c = '-' then some 62
  else if c = '_' then some 63
  else none

/-- Membership in the urlsafe base64 alphabet. -/
def isB64UrlChar (c : Char) : Bool := (b64Val c).isSome

/-- Character of a six-bit value in the urlsafe base64 alphabet. -/
def b64Char (n : Nat) : Char :=
  if n ≤ 25 then Char.ofNat (65 + n)
  else if n ≤ 51 then Char.ofNat (71 + n)
  else if n ≤ 61 then Char.ofNat (n - 4)
  else if n = 62 then '-'
  else '_'

/-- Base64 encoding of byte groups, expressed arithmetically: three bytes
to four characters, a final group of two bytes to three characters and of
one byte to two characters (the padding characters are stripped by
_b64url_encode, so they are never produced here). -/
def b64EncodeGroups : List Nat → List Char
  | a :: b :: c :: rest =>
      b64Char (a / 4) :: b64Char (a % 4 * 16 + b / 16) ::
        b64Char (b % 16 * 4 + c / 64) :: b64Char (c % 64) :: b64EncodeGroups rest
  | [a, b] => [b64Char (a / 4), b64Char (a % 4 * 16 + b / 16), b64Char (b % 16 * 4)]
  | [a] => [b64Char (a / 4), b64Char (a % 4 * 16)]
  | [] => []

/-- The helper _b64url_encode of jwt.py lines 16 to 17: urlsafe base64
with the equals padding stripped. -/
def b64urlEncode (bs : List Nat) : List Char := b64EncodeGroups bs

/-- Base64 decoding of six-bit value groups: four values to three bytes; a
final group of three values to two bytes and of two values to one byte,
dropping the unused low bits as binascii does. -/
def b64DecodeVals : List Nat → List Nat
  | a :: b :: c :: d :: rest =>
      (a * 4 + b / 16) :: (b % 16 * 16 + c / 4) :: (c % 4 * 64 + d) :: b64DecodeVals rest
  | [a, b, c] => [a * 4 + b / 16, b % 16 * 16 + c / 4]
  | [a, b] => [a * 4 + b / 16]
  | [_] => []
  | [] => []

/-- The helper _b64url_decode of jwt.py lines 20 to 22: equals padding is
appended up to a multiple of four and urlsafe_b64decode is called.  On
inputs over the urlsafe alphabet binascii ignores the unused low bits of a
final partial group, and a data length of one more than a multiple of four
is an error.  Inputs containing characters outside the alphabet are
modelled as failures (binascii would skip such characters; no claim
exercises that path). -/
def b64urlDecode (s : List Char) : Option (List Nat) :=
  if s.all isB64UrlChar then
    if s.length % 4 = 1 then none
    else some (b64DecodeVals (s.map (fun c => (b64Val c).getD 0)))
  else none

/-- Reduce to a 32-bit word. -/
def w32 (n : Nat) : Nat := n % 4294967296

/-- Rotate a 32-bit word right. -/
def rotr32 (x n : Nat) : Nat := w32 ((x >>> n) ||| (x <<< (32 - n)))

/-- The SHA-256 round constants. -/
def sha256K : List Nat :=
  [1116352408, 1899447441, 3049323471, 3921009573, 961987163, 1508970993,
   2453635748, 2870763221, 3624381080, 310598401, 607225278, 1426881987,
   1925078388, 2162078206, 2614888103, 3248222580, 3835390401, 4022224774,
   264347078, 604807628, 770255983, 1249150122, 1555081692, 1996064986,
   2554220882, 2821834349, 2952996808, 3210313671, 3336571891, 3584528711,
   113926993, 338241895, 666307205, 773529912, 1294757372, 1396182291,
   1695183700, 1986661051, 2177026350, 2456956037, 2730485921, 2820302411,
   3259730800, 3345764771, 3516065817, 3600352804, 4094571909, 275423344,
   430227734, 506948616, 659060556, 883997877, 958139571, 1322822218,
   1537002063, 1747873779, 1955562222, 2024104815, 2227730452, 2361852424,
   2428436474, 2756734187, 3204031479, 3329325298]

/-- The SHA-256 initial hash words. -/
def sha256H0 : List Nat :=
  [1779033703, 3144134277, 1013904242, 2773480762,
   1359893119, 2600822924, 528734635, 1541459225]

/-- Big-endian eight-byte rendering of a length in bits. -/
def be64Bytes (n : Nat) : List Nat :=
  [n / 72057594037927936 % 256, n / 281474976710656 % 256,
   n / 1099511627776 % 256, n / 4294967296 % 256,
   n / 16777216 % 256, n / 65536 % 256, n / 256 % 256, n % 256]

/-- SHA-256 message padding: a 0x80 byte, zeros to 56 modulo 64, then the
message bit length big-endian in eight bytes. -/
def sha256Pad (msg : List Nat) : List Nat :=
  msg ++ 128 :: List.replicate ((119 - msg.length % 64) % 64) 0 ++
    be64Bytes (msg.length * 8)

/-- Big-endian 32-bit words from bytes. -/
def bytesToWords : List Nat → List Nat
  | a :: b :: c :: d :: rest =>
      (a * 16777216 + b * 65536 + c * 256 + d) :: bytesToWords rest
  | _ => []

/-- Split a byte list into chunks of sixty-four, with explicit recursion
fuel (structural, so that the kernel can evaluate it; the wrapper below
always supplies enough). -/
def chunks64Fuel : Nat → List Nat → List (List Nat)
  | 0, _ => []
  | _, [] => []
  | fuel + 1, b :: rest => ((b :: rest).take 64) :: chunks64Fuel fuel ((b :: rest).drop 64)

/-- Split a byte list into chunks of sixty-four. -/
def chunks64 (bs : List Nat) : List (List Nat) := chunks64Fuel bs.length bs

/-- The next word of the SHA-256 message schedule, from the last sixteen
words of the schedule so far. -/
def scheduleWord (w : List Nat) : Nat :=
  let n := w.length
  let w15 := w.getD (n - 15) 0
  let w2 := w.getD (n - 2) 0
  let s0 := rotr32 w15 7 ^^^ rotr32 w15 18 ^^^ (w15 >>> 3)
  let s1 := rotr32 w2 17 ^^^ rotr32 w2 19 ^^^ (w2 >>> 10)
  w32 (w.getD (n - 16) 0 + s0 + w.getD (n - 7) 0 + s1)

/-- Extend sixteen schedule words to sixty-four. -/
def extendSchedule (ws : List Nat) : List Nat :=
  (List.range 48).foldl (fun w _ => w ++ [scheduleWord w]) ws

/-- One SHA-256 compression round on the eight working words. -/
def compressStep (st : List Nat) (kw : Nat × Nat) : List Nat :=
  match st with
  | [a, b, c, d, e, f, g, h] =>
      let s1 := rotr32 e 6 ^^^ rotr32 e 11 ^^^ rotr32 e 25
      let ch := (e &&& f) ^^^ ((e ^^^ 4294967295) &&& g)
      let t1 := w32 (h + s1 + ch + kw.1 + kw.2)
      let s0 := rotr32 a 2 ^^^ rotr32 a 13 ^^^ rotr32 a 22
      let maj := (a &&& b) ^^^ (a &&& c) ^^^ (b &&& c)
      let t2 := w32 (s0 + maj)
      [w32 (t1 + t2), a, b, c, w32 (d + t1), e, f, g]
  | _ => st

/-- Process one sixty-four-byte chunk into the running hash words. -/
def processChunk (h : List Nat) (chunk : List Nat) : List Nat :=
  let ws := extendSchedule (bytesToWords chunk)
  let st := (sha256K.zip ws).foldl compressStep h
  (h.zip st).map (fun p => w32 (p.1 + p.2))

/-- Big-endian bytes of a 32-bit word. -/
def word32Bytes (w : Nat) : List Nat :=
  [w / 16777216 % 256, w / 65536 % 256, w / 256 % 256, w % 256]

/-- SHA-256 of a byte list, as hashlib.sha256 digest. -/
def sha256 (msg : List Nat) : List Nat :=
  let hs := (chunks64 (sha256Pad msg)).foldl processChunk sha256H0
  (hs.map word32Bytes).flatten

/-- HMAC-SHA-256 as the hmac module computes it with sha256 and the
sixty-four-byte block size. -/
def hmacSha256 (key msg : List Nat) : List Nat :=
  let k0 := if key.length > 64 then sha256 key else key
  let kp := k0 ++ List.replicate (64 - k0.length) 0
  sha256 ((kp.map (fun b => b ^^^ 92)) ++ sha256 ((kp.map (fun b => b ^^^ 54)) ++ msg))

example : sha256 [97, 98, 99] =
    [186, 120, 22, 191, 143, 1, 207, 234, 65, 65, 64, 222,
     93, 174, 34, 35, 176, 3, 97, 163, 150, 23, 122, 156,
     180, 16, 255, 97, 242, 0, 21, 173] := by decide

example : (hmacSha256 [107] [109, 115, 103]).take 6 =
    [191, 26, 12, 18, 66, 146] := by decide

/-! ## The JWT codec (python_script_api/jwt.py, also vendored as
quant_script_api/jwt.py) -/

/-- Failures escaping decode_and_verify_hs256: jwtError is a raised
JWTError with its message; pyError is an uncaught exception of another
class escaping the function (the source wraps only the segment decoding in
a try block). -/
inductive DecodeFailure where
  | jwtError (msg : String)
  | pyError (msg : String)
deriving DecidableEq, Repr

/-- The signing input characters, the f-string of header and payload
segments joined by a dot. -/
def sigInputChars (hb pb : List Char) : List Char := hb ++ '.' :: pb

/-- Python dict.get on an insertion-ordered key-value list. -/
def pyGet (kvs : List (String × Json)) (k : String) : Option Json :=
  (kvs.find? (fun p => p.1 == k)).map (fun p => p.2)

/-- encode_hs256 of jwt.py lines 25 to 32: compact JSON of the fixed
header and of the payload, each UTF-8 encoded then urlsafe base64 encoded
without padding; the HMAC-SHA-256 signature of the dotted signing input
under the UTF-8 bytes of the secret; the three segments joined by dots.
The signing input bytes come from encoding as ASCII, which on the base64
segments equals the code points. -/
def encodeHs256 (payload : List (String × Json)) (secret : String) : String :=
  let headerKvs : List (String × Json) := [("alg", .str "HS256"), ("typ", .str "JWT")]
  let hb := b64urlEncode (utf8Encode (dumps (.obj headerKvs)))
  let pb := b64urlEncode (utf8Encode (dumps (.obj payload)))
  let sig := hmacSha256 (utf8Encode secret.data) ((sigInputChars hb pb).map Char.toNat)
  String.mk (hb ++ '.' :: pb ++ '.' :: b64urlEncode sig)

/-- Python str.split on a dot: every occurrence splits, empty parts
included. -/
def splitDots : List Char → List (List Char)
  | [] => [[]]
  | c :: rest =>
      if c = '.' then [] :: splitDots rest
      else
        match splitDots rest with
        | s :: ss => (c :: s) :: ss
        | [] => [[c]]

/-- Digit run value for the int() coercion on strings. -/
def digitsVal : List Char → Option Nat
  | [] => none
  | cs =>
      if cs.all isDigitChar then
        some (cs.foldl (fun acc c => acc * 10 + digitVal c) 0)
      else none

/-- Python int() on a string: optional surrounding spaces, an optional
sign, then decimal digits (digit grouping underscores are outside the
model; no claim uses them). -/
def parseIntString (s : String) : Option Int :=
  let cs := (((s.data.dropWhile (fun c => c = ' ')).reverse.dropWhile
    (fun c => c = ' ')).reverse)
  match cs with
  | '-' :: ds => (digitsVal ds).map (fun n => -(n : Int))
  | '+' :: ds => (digitsVal ds).map (fun n => (n : Int))
  | ds => (digitsVal ds).map (fun n => (n : Int))

/-- Python int() on a JSON claim value, as jwt.py applies it to exp and
nbf: ints pass through, booleans coerce to zero or one, numeric strings
parse, anything else raises (giving the invalid-claim error). -/
def pyToInt : Json → Option Int
  | .num n => some n
  | .bool b => some (if b then 1 else 0)
  | .str s => parseIntString s
  | _ => none

/-- The exp check of jwt.py lines 72 to 79: missing or JSON-null exp is
skipped (both are Python None after loads); a value int() cannot coerce is
an invalid-claim error; otherwise reject exactly when now is greater than
exp plus leeway. -/
def checkExp (kvs : List (String × Json)) (now leeway : Int) :
    Except DecodeFailure Unit :=
  match pyGet kvs "exp" with
  | none => .ok ()
  | some .null => .ok ()
  | some v =>
      match pyToInt v with
      | none => .error (.jwtError "Invalid exp claim")
      | some e => if now > e + leeway then .error (.jwtError "Token expired") else .ok ()

/-- The nbf check of jwt.py lines 81 to 88: missing or JSON-null nbf is
skipped; a value int() cannot coerce is an invalid-claim error; otherwise
reject exactly when now plus leeway is below nbf. -/
def checkNbf (kvs : List (String × Json)) (now leeway : Int) :
    Except DecodeFailure Unit :=
  match pyGet kvs "nbf" with
  | none => .ok ()
  | some .null => .ok ()
  | some v =>
      match pyToInt v with
      | none => .error (.jwtError "Invalid nbf claim")
      | some n => if now + leeway < n then .error (.jwtError "Token not yet valid") else .ok ()

/-- The iss check of jwt.py lines 90 to 92: when an expected issuer is
configured, the iss claim must be exactly that string. -/
def checkIss (kvs : List (String × Json)) (expectedIss : Option String) :
    Except DecodeFailure Unit :=
  match expectedIss with
  | none => .ok ()
  | some iss =>
      match pyGet kvs "iss" with
      | some (.str s) => if s = iss then .ok () else .error (.jwtError "Invalid iss claim")
      | _ => .error (.jwtError "Invalid iss claim")

/-- The aud check of jwt.py lines 94 to 105: when an expected audience is
configured, a missing aud (or JSON null, which is Python None) is a
missing-claim error; a string aud must equal it; a list aud must contain
it as a string element; any other shape is invalid. -/
def checkAud (kvs : List (String × Json)) (expectedAud : Option String) :
    Except DecodeFailure Unit :=
  match expectedAud with
  | none => .ok ()
  | some a =>
      match pyGet kvs "aud" with
      | none => .error (.jwtError "Missing aud claim")
      | some .null => .error (.jwtError "Missing aud claim")
      | some (.str s) => if s = a then .ok () else .error (.jwtError "Invalid aud claim")
      | some (.arr xs) =>
          if xs.any (fun v => match v with | .str s => s == a | _ => false) then .ok ()
          else .error (.jwtError "Invalid aud claim")
      | some _ => .error (.jwtError "Invalid aud claim")

/-- The claim checks of decode_and_verify_hs256 in source order: exp,
nbf, iss, aud. -/
def claimChecks (kvs : List (String × Json)) (now leeway : Int)
    (expectedIss expectedAud : Option String) : Except DecodeFailure Unit :=
  match checkExp kvs now leeway with
  | .error e => .error e
  | .ok _ =>
      match checkNbf kvs now leeway with
      | .error e => .error e
      | .ok _ =>
          match checkIss kvs expectedIss with
          | .error e => .error e
          | .ok _ => checkAud kvs expectedAud

/-- Segment decoding as the try block of jwt.py lines 55 to 59 performs
it: urlsafe base64, then json.loads on the bytes (UTF-8 strict, then the
JSON grammar). -/
def segmentJson (seg : List Char) : Option Json :=
  (b64urlDecode seg).bind (fun bs => (utf8Decode bs).bind loads)

/-- The signature comparison and payload access of jwt.py lines 67 to 72:
hmac.compare_digest of the recomputed and presented signatures, then the
payload must be a dict for the claim accesses (else AttributeError,
uncaught). -/
def checkSignature (payloadJ : Json) (expectedSig actualSig : List Nat) :
    Except DecodeFailure (List (String × Json)) :=
  if expectedSig = actualSig then
    match payloadJ with
    | .obj pkvs => .ok pkvs
    | _ => .error (.pyError "AttributeError")
  else .error (.jwtError "Invalid JWT signature")

/-- The verification steps of jwt.py lines 61 to 72 on the decoded header
and payload JSON: require a dict header carrying alg HS256 (a non-dict
header raises AttributeError, uncaught); build the ASCII signing input (a
non-ASCII segment would raise, uncaught); decode the signature segment
(whose base64 failure raises binascii.Error, uncaught, being outside the
try block); compare and return the payload claims. -/
def decodeWithJson (headerJ payloadJ : Json) (hb pb sb : List Char)
    (secret : String) : Except DecodeFailure (List (String × Json)) :=
  match headerJ with
  | .obj hkvs =>
      match pyGet hkvs "alg" with
      | some (.str a) =>
          if a = "HS256" then
            if (sigInputChars hb pb).all (fun c => c.toNat < 128) then
              match b64urlDecode sb with
              | none => .error (.pyError "binascii.Error")
              | some actualSig =>
                  checkSignature payloadJ
                    (hmacSha256 (utf8Encode secret.data)
                      ((sigInputChars hb pb).map Char.toNat))
                    actualSig
            else .error (.pyError "UnicodeEncodeError")
          else .error (.jwtError "Unsupported JWT alg")
      | _ => .error (.jwtError "Unsupported JWT alg")
  | _ => .error (.pyError "AttributeError")

/-- Decoding of both JSON segments, mapping any failure inside the try
block of jwt.py lines 55 to 59 to the invalid-encoding error. -/
def decodeParts (hb pb sb : List Char) (secret : String) :
    Except DecodeFailure (List (String × Json)) :=
  match segmentJson hb, segmentJson pb with
  | some headerJ, some payloadJ => decodeWithJson headerJ payloadJ hb pb sb secret
  | _, _ => .error (.jwtError "Invalid JWT encoding")

/-- The dot split of jwt.py lines 50 to 53: exactly three segments or the
invalid-format error. -/
def decodeSegments (segs : List (List Char)) (secret : String) :
    Except DecodeFailure (List (String × Json)) :=
  match segs with
  | [hb, pb, sb] => decodeParts hb pb sb secret
  | _ => .error (.jwtError "Invalid JWT format")

/-- The structural part of decode_and_verify_hs256 (jwt.py lines 50 to
68 and the payload access of line 72), staged as split, segment decode,
header and signature verification. -/
def decodeCore (token secret : String) :
    Except DecodeFailure (List (String × Json)) :=
  decodeSegments (splitDots token.data) secret

/-- decode_and_verify_hs256 of jwt.py lines 41 to 107: the structural
verification, then the claim checks, returning the payload claims.  The
source defaults now to the current clock; here it is always explicit. -/
def decodeAndVerifyHs256 (token secret : String) (now leeway : Int)
    (expectedIss expectedAud : Option String) :
    Except DecodeFailure (List (String × Json)) :=
  match decodeCore token secret with
  | .error e => .error e
  | .ok pkvs =>
      match claimChecks pkvs now leeway expectedIss expectedAud with
      | .error e => .error e
      | .ok _ => .ok pkvs

/-! ## The auth gate scope check (quant_script_api/auth.py) -/

/-- Python str() of a scope entry, as the set comprehension in auth.py
line 61 applies it.  Container entries get an abridged rendering: no
theorem below depends on the str() of a list or dict scope entry. -/
def pyStr : Json → String
  | .str s => s
  | .num n => String.mk (intChars n)
  | .bool true => "True"
  | .bool false => "False"
  | .null => "None"
  | .arr _ => String.mk ['[', ']']
  | .obj _ => String.mk [lbraceChar, rbraceChar]

/-- The scope extraction of auth.py lines 56 to 61: claims.get of scopes,
with a falsy value (None, an empty string, zero, an empty container,
False) replaced by the empty list; a string becomes a one-element list;
a non-list becomes the empty list; then str() of every element. -/
def extractScopes (claims : List (String × Json)) : List String :=
  match pyGet claims "scopes" with
  | none => []
  | some .null => []
  | some (.bool _) => []
  | some (.num _) => []
  | some (.str s) => if s = "" then [] else [s]
  | some (.arr xs) => xs.map pyStr
  | some (.obj _) => []

/-- The scope gate of auth.py lines 63 to 68, reached after a successful
token verification: with a nonempty required set, reject with HTTP 403
unless the wildcard is among the token scopes or every required scope is;
an empty required set admits unconditionally. -/
def requireScopesCheck (required : List String)
    (claims : List (String × Json)) : Except Nat (List (String × Json)) :=
  let scopesSet := extractScopes claims
  if required.isEmpty then .ok claims
  else if scopesSet.contains "*" || required.all (fun s => scopesSet.contains s) then
    .ok claims
  else .error 403

/-! ## Character arithmetic helpers -/

theorem charToNat_lt (c : Char) : c.toNat < 1114112 := by
  have h := c.valid
  simp only [Char.toNat]
  rcases h with h | h <;> omega

theorem charToNat_not_surrogate (c : Char) :
    ¬ (55296 ≤ c.toNat ∧ c.toNat < 57344) := by
  have h := c.valid
  simp only [Char.toNat]
  rcases h with h | h <;> omega

theorem toNat_ofNat_low {n : Nat} (h : n < 55296) : (Char.ofNat n).toNat = n := by
  rw [Char.ofNat, dif_pos (Or.inl h)]
  simp [Char.ofNatAux, Char.toNat, UInt32.toNat, BitVec.toNat_ofNatLt]

theorem toNat_ofNat_high {n : Nat} (h : 57343 < n) (h2 : n < 1114112) :
    (Char.ofNat n).toNat = n := by
  rw [Char.ofNat, dif_pos (Or.inr ⟨h, h2⟩)]
  simp [Char.ofNatAux, Char.toNat, UInt32.toNat, BitVec.toNat_ofNatLt]

theorem char_eq_of_toNat {c d : Char} (h : c.toNat = d.toNat) : c = d := by
  have hc := Char.ofNat_toNat c
  have hd := Char.ofNat_toNat d
  rw [← hc, ← hd, h]

/-! ## Base64 lemmas -/

theorem b64Val_b64Char {n : Nat} (h : n < 64) : b64Val (b64Char n) = some n := by
  interval_cases n <;> decide

theorem isB64UrlChar_b64Char {n : Nat} (h : n < 64) : isB64UrlChar (b64Char n) = true := by
  simp [isB64UrlChar, b64Val_b64Char h]

theorem b64UrlChar_ascii {c : Char} (h : isB64UrlChar c = true) : c.toNat < 128 := by
  simp only [isB64UrlChar, b64Val] at h
  split_ifs at h with h1 h2 h3 h4 h5
  · omega
  · omega
  · omega
  · subst h4; decide
  · subst h5; decide
  · simp at h

theorem b64UrlChar_ne_dot {c : Char} (h : isB64UrlChar c = true) : c ≠ '.' := by
  intro he
  subst he
  simp [isB64UrlChar, b64Val] at h

theorem b64EncodeGroups_alphabet {bs : List Nat} (hb : ∀ b ∈ bs, b < 256) :
    ∀ c ∈ b64EncodeGroups bs, isB64UrlChar c = true := by
  induction bs using b64EncodeGroups.induct with
  | case1 a b c rest ih =>
      have ha : a < 256 := hb a (by simp)
      have hb2 : b < 256 := hb b (by simp)
      have hc : c < 256 := hb c (by simp)
      intro x hx
      simp only [b64EncodeGroups, List.mem_cons] at hx
      rcases hx with rfl | rfl | rfl | rfl | hx
      · exact isB64UrlChar_b64Char (by omega)
      · exact isB64UrlChar_b64Char (by omega)
      · exact isB64UrlChar_b64Char (by omega)
      · exact isB64UrlChar_b64Char (by omega)
      · exact ih (fun y hy => hb y (by simp [hy])) x hx
  | case2 a b =>
      have ha : a < 256 := hb a (by simp)
      have hb2 : b < 256 := hb b (by simp)
      intro x hx
      simp only [b64EncodeGroups, List.mem_cons] at hx
      rcases hx with rfl | rfl | rfl | hx
      · exact isB64UrlChar_b64Char (by omega)
      · exact isB64UrlChar_b64Char (by omega)
      · exact isB64UrlChar_b64Char (by omega)
      · simp at hx
  | case3 a =>
      have ha : a < 256 := hb a (by simp)
      intro x hx
      simp only [b64EncodeGroups, List.mem_cons] at hx
      rcases hx with rfl | rfl | hx
      · exact isB64UrlChar_b64Char (by omega)
      · exact isB64UrlChar_b64Char (by omega)
      · simp at hx
  | case4 => intro x hx; simp [b64EncodeGroups] at hx

theorem b64EncodeGroups_length_mod (bs : List Nat) :
    (b64EncodeGroups bs).length % 4 ≠ 1 := by
  induction bs using b64EncodeGroups.induct with
  | case1 a b c rest ih => simp [b64EncodeGroups]; omega
  | case2 a b => simp [b64EncodeGroups]
  | case3 a => simp [b64EncodeGroups]
  | case4 => simp [b64EncodeGroups]

theorem b64DecodeVals_encode {bs : List Nat} (hb : ∀ b ∈ bs, b < 256) :
    b64DecodeVals ((b64EncodeGroups bs).map (fun c => (b64Val c).getD 0)) = bs := by
  induction bs using b64EncodeGroups.induct with
  | case1 a b c rest ih =>
      have ha : a < 256 := hb a (by simp)
      have hb2 : b < 256 := hb b (by simp)
      have hc : c < 256 := hb c (by simp)
      simp only [b64EncodeGroups, List.map_cons,
        b64Val_b64Char (show a / 4 < 64 by omega),
        b64Val_b64Char (show a % 4 * 16 + b / 16 < 64 by omega),
        b64Val_b64Char (show b % 16 * 4 + c / 64 < 64 by omega),
        b64Val_b64Char (show c % 64 < 64 by omega), Option.getD_some]
      rw [b64DecodeVals, ih (fun y hy => hb y (by simp [hy]))]
      congr 1
      · omega
      · congr 1
        · omega
        · congr 1
          omega
  | case2 a b =>
      have ha : a < 256 := hb a (by simp)
      have hb2 : b < 256 := hb b (by simp)
      simp only [b64EncodeGroups, List.map_cons, List.map_nil,
        b64Val_b64Char (show a / 4 < 64 by omega),
        b64Val_b64Char (show a % 4 * 16 + b / 16 < 64 by omega),
        b64Val_b64Char (show b % 16 * 4 < 64 by omega), Option.getD_some]
      rw [b64DecodeVals]
      congr 1
      · omega
      · congr 1
        omega
  | case3 a =>
      have ha : a < 256 := hb a (by simp)
      simp only [b64EncodeGroups, List.map_cons, List.map_nil,
        b64Val_b64Char (show a / 4 < 64 by omega),
        b64Val_b64Char (show a % 4 * 16 < 64 by omega), Option.getD_some]
      rw [b64DecodeVals]
      congr 1
      omega
  | case4 => simp [b64EncodeGroups, b64DecodeVals]

theorem b64urlDecode_encode {bs : List Nat} (hb : ∀ b ∈ bs, b < 256) :
    b64urlDecode (b64urlEncode bs) = some bs := by
  unfold b64urlDecode b64urlEncode
  rw [if_pos, if_neg (b64EncodeGroups_length_mod bs), b64DecodeVals_encode hb]
  rw [List.all_eq_true]
  intro c hc
  exact b64EncodeGroups_alphabet hb c hc

/-! ## Split, UTF-8 and digest byte lemmas -/

theorem splitDots_no_dot {a : List Char} (h : ∀ c ∈ a, c ≠ '.') :
    splitDots a = [a] := by
  induction a with
  | nil => rfl
  | cons c rest ih =>
      have hc : c ≠ '.' := h c (by simp)
      rw [splitDots, if_neg hc, ih (fun x hx => h x (by simp [hx]))]

theorem splitDots_append {a : List Char} (r : List Char) (h : ∀ c ∈ a, c ≠ '.') :
    splitDots (a ++ '.' :: r) = a :: splitDots r := by
  induction a with
  | nil => simp [splitDots]
  | cons c rest ih =>
      have hc : c ≠ '.' := h c (by simp)
      rw [List.cons_append, splitDots, if_neg hc,
        ih (fun x hx => h x (by simp [hx]))]

theorem utf8EncodeChar_ascii {c : Char} (h : c.toNat < 128) :
    utf8EncodeChar c = [c.toNat] := by
  unfold utf8EncodeChar
  rw [if_pos h]

theorem utf8Encode_ascii {cs : List Char} (h : ∀ c ∈ cs, c.toNat < 128) :
    utf8Encode cs = cs.map Char.toNat := by
  induction cs with
  | nil => rfl
  | cons c rest ih =>
      simp only [utf8Encode, List.map_cons, List.flatten_cons,
        utf8EncodeChar_ascii (h c (by simp))]
      rw [show (List.map utf8EncodeChar rest).flatten = utf8Encode rest from rfl,
        ih (fun x hx => h x (by simp [hx]))]
      rfl

theorem utf8Decode_ascii {cs : List Char} (h : ∀ c ∈ cs, c.toNat < 128) :
    utf8Decode (cs.map Char.toNat) = some cs := by
  induction cs with
  | nil => rfl
  | cons c rest ih =>
      have hc : c.toNat < 128 := h c (List.mem_cons_self c rest)
      have hrest := ih (fun x hx => h x (List.mem_cons_of_mem c hx))
      rw [List.map_cons, utf8Decode, if_pos hc, hrest]
      simp [Char.ofNat_toNat]

theorem sha256_bytes_lt (msg : List Nat) : ∀ b ∈ sha256 msg, b < 256 := by
  intro b hb
  simp only [sha256, List.mem_flatten, List.mem_map] at hb
  obtain ⟨l, ⟨w, _, rfl⟩, hbl⟩ := hb
  simp only [word32Bytes, List.mem_cons, List.not_mem_nil, or_false] at hbl
  rcases hbl with rfl | rfl | rfl | rfl <;> omega

theorem hmacSha256_bytes_lt (key msg : List Nat) :
    ∀ b ∈ hmacSha256 key msg, b < 256 := by
  intro b hb
  simp only [hmacSha256] at hb
  exact sha256_bytes_lt _ b hb

theorem skipWs_cons {c : Char} {r : List Char} (h : isJsonWs c = false) :
    skipWs (c :: r) = c :: r := by
  rw [skipWs, h]
  simp

theorem char_ne_of_toNat {c d : Char} (h : c.toNat ≠ d.toNat) : c ≠ d :=
  fun he => h (by rw [he])

theorem digitChar_toNat {d : Nat} (h : d < 10) : (digitChar d).toNat = 48 + d :=
  toNat_ofNat_low (by omega)

theorem isDigitChar_digitChar {d : Nat} (h : d < 10) :
    isDigitChar (digitChar d) = true := by
  simp [isDigitChar, digitChar_toNat h]
  omega

theorem digitVal_digitChar {d : Nat} (h : d < 10) : digitVal (digitChar d) = d := by
  simp [digitVal, digitChar_toNat h]

theorem natDigitsFuel_digits :
    ∀ fuel n, ∀ c ∈ natDigitsFuel fuel n, ∃ d, d < 10 ∧ c = digitChar d := by
  intro fuel
  induction fuel with
  | zero => intro n c hc; simp [natDigitsFuel] at hc
  | succ fuel ih =>
      intro n c hc
      rw [natDigitsFuel] at hc
      split_ifs at hc with h
      · simp at hc
        exact ⟨n, h, hc⟩
      · rw [List.mem_append] at hc
        rcases hc with hc | hc
        · exact ih _ c hc
        · simp at hc
          exact ⟨n % 10, by omega, hc⟩

theorem natDigitsFuel_ne_nil {fuel n : Nat} (h : 0 < fuel) :
    natDigitsFuel fuel n ≠ [] := by
  match fuel, h with
  | fuel + 1, _ =>
      rw [natDigitsFuel]
      split_ifs
      · simp
      · simp

/-! ## String escape roundtrip -/

theorem hexVal_hexDigitChar {d : Nat} (h : d < 16) :
    hexVal (hexDigitChar d) = some d := by
  interval_cases d <;> decide

theorem escapeString_cons (c : Char) (cs : List Char) :
    escapeString (c :: cs) = escapeChar c ++ escapeString cs := by
  simp [escapeString]

theorem parseStringBody_escapeChar (c : Char) (tl : List Char) :
    parseStringBody (escapeChar c ++ tl) =
      (parseStringBody tl).map (fun p => (c :: p.1, p.2)) := by
  by_cases h1 : c = quoteChar
  · subst h1
    show parseStringBody (backslashChar :: quoteChar :: tl) = _
    rw [parseStringBody, if_neg (by decide), if_pos rfl, parseEscape, if_pos rfl]
  · by_cases h2 : c = backslashChar
    · subst h2
      show parseStringBody (backslashChar :: backslashChar :: tl) = _
      rw [parseStringBody, if_neg (by decide), if_pos rfl, parseEscape,
        if_neg (by decide), if_pos rfl]
    · by_cases h3 : c.toNat = 8
      · have he : escapeChar c = [backslashChar, 'b'] := by
          simp [escapeChar, h1, h2, h3]
        have hc : c = Char.ofNat 8 :=
          char_eq_of_toNat (by rw [h3, toNat_ofNat_low (by omega)])
        rw [he]
        show parseStringBody (backslashChar :: 'b' :: tl) = _
        rw [parseStringBody, if_neg (by decide), if_pos rfl, parseEscape,
          if_neg (by decide), if_neg (by decide), if_neg (by decide), if_pos rfl, ← hc]
      · by_cases h4 : c.toNat = 9
        · have he : escapeChar c = [backslashChar, 't'] := by
            simp [escapeChar, h1, h2, h3, h4]
          have hc : c = Char.ofNat 9 :=
            char_eq_of_toNat (by rw [h4, toNat_ofNat_low (by omega)])
          rw [he]
          show parseStringBody (backslashChar :: 't' :: tl) = _
          rw [parseStringBody, if_neg (by decide), if_pos rfl, parseEscape,
            if_neg (by decide), if_neg (by decide), if_neg (by decide),
            if_neg (by decide), if_pos rfl, ← hc]
        · by_cases h5 : c.toNat = 10
          · have he : escapeChar c = [backslashChar, 'n'] := by
              simp [escapeChar, h1, h2, h3, h4, h5]
            have hc : c = Char.ofNat 10 :=
              char_eq_of_toNat (by rw [h5, toNat_ofNat_low (by omega)])
            rw [he]
            show parseStringBody (backslashChar :: 'n' :: tl) = _
            rw [parseStringBody, if_neg (by decide), if_pos rfl, parseEscape,
              if_neg (by decide), if_neg (by decide), if_neg (by decide),
              if_neg (by decide), if_neg (by decide), if_pos rfl, ← hc]
          · by_cases h6 : c.toNat = 12
            · have he : escapeChar c = [backslashChar, 'f'] := by
                simp [escapeChar, h1, h2, h3, h4, h5, h6]
              have hc : c = Char.ofNat 12 :=
                char_eq_of_toNat (by rw [h6, toNat_ofNat_low (by omega)])
              rw [he]
              show parseStringBody (backslashChar :: 'f' :: tl) = _
              rw [parseStringBody, if_neg (by decide), if_pos rfl, parseEscape,
                if_neg (by decide), if_neg (by decide), if_neg (by decide),
                if_neg (by decide), if_neg (by decide), if_neg (by decide),
                if_pos rfl, ← hc]
            · by_cases h7 : c.toNat = 13
              · have he : escapeChar c = [backslashChar, 'r'] := by
                  simp [escapeChar, h1, h2, h3, h4, h5, h6, h7]
                have hc : c = Char.ofNat 13 :=
                  char_eq_of_toNat (by rw [h7, toNat_ofNat_low (by omega)])
                rw [he]
                show parseStringBody (backslashChar :: 'r' :: tl) = _
                rw [parseStringBody, if_neg (by decide), if_pos rfl, parseEscape,
                  if_neg (by decide), if_neg (by decide), if_neg (by decide),
                  if_neg (by decide), if_neg (by decide), if_neg (by decide),
                  if_neg (by decide), if_pos rfl, ← hc]
              · by_cases h8 : c.toNat < 32 ∨ 126 < c.toNat
                · by_cases h9 : c.toNat < 65536
                  · -- single unicode escape
                    have he : escapeChar c = backslashChar :: 'u' :: hex4 c.toNat := by
                      simp [escapeChar, h1, h2, h3, h4, h5, h6, h7, h9]
                      intro hlt
                      rcases h8 with h8 | h8 <;> omega
                    have hsur := charToNat_not_surrogate c
                    rw [he]
                    show parseStringBody
                        (backslashChar :: 'u' :: (hex4 c.toNat ++ tl)) = _
                    rw [parseStringBody, if_neg (by decide), if_pos rfl, parseEscape,
                      if_neg (by decide), if_neg (by decide), if_neg (by decide),
                      if_neg (by decide), if_neg (by decide), if_neg (by decide),
                      if_neg (by decide), if_neg (by decide), if_pos rfl]
                    simp only [hex4, List.cons_append, List.nil_append]
                    rw [parseUnicodeEscape,
                      hexVal_hexDigitChar (show c.toNat / 4096 % 16 < 16 by omega),
                      hexVal_hexDigitChar (show c.toNat / 256 % 16 < 16 by omega),
                      hexVal_hexDigitChar (show c.toNat / 16 % 16 < 16 by omega),
                      hexVal_hexDigitChar (show c.toNat % 16 < 16 by omega)]
                    have hv : c.toNat / 4096 % 16 * 4096 + c.toNat / 256 % 16 * 256 +
                        c.toNat / 16 % 16 * 16 + c.toNat % 16 = c.toNat := by omega
                    simp only [hv]
                    rw [if_neg (by omega), if_neg (by omega), Char.ofNat_toNat]
                  · -- surrogate pair escape
                    have hlt := charToNat_lt c
                    have he : escapeChar c =
                        backslashChar :: 'u' :: hex4 (55296 + (c.toNat - 65536) / 1024) ++
                        backslashChar :: 'u' :: hex4 (56320 + (c.toNat - 65536) % 1024) := by
                      simp [escapeChar, h1, h2, h3, h4, h5, h6, h7, h9]
                      intro hlt2
                      rcases h8 with h8 | h8 <;> omega
                    rw [he]
                    show parseStringBody
                        (backslashChar :: 'u' :: (hex4 (55296 + (c.toNat - 65536) / 1024) ++
                          (backslashChar :: 'u' :: hex4 (56320 + (c.toNat - 65536) % 1024) ++ tl))) = _
                    rw [parseStringBody, if_neg (by decide), if_pos rfl, parseEscape,
                      if_neg (by decide), if_neg (by decide), if_neg (by decide),
                      if_neg (by decide), if_neg (by decide), if_neg (by decide),
                      if_neg (by decide), if_neg (by decide), if_pos rfl]
                    simp only [hex4, List.cons_append, List.nil_append]
                    rw [parseUnicodeEscape,
                      hexVal_hexDigitChar (by omega), hexVal_hexDigitChar (by omega),
                      hexVal_hexDigitChar (by omega), hexVal_hexDigitChar (by omega)]
                    have hv : (55296 + (c.toNat - 65536) / 1024) / 4096 % 16 * 4096 +
                        (55296 + (c.toNat - 65536) / 1024) / 256 % 16 * 256 +
                        (55296 + (c.toNat - 65536) / 1024) / 16 % 16 * 16 +
                        (55296 + (c.toNat - 65536) / 1024) % 16 =
                        55296 + (c.toNat - 65536) / 1024 := by omega
                    simp only [hv]
                    rw [if_pos (by omega)]
                    rw [parseLowSurrogate, if_pos ⟨rfl, rfl⟩,
                      hexVal_hexDigitChar (by omega), hexVal_hexDigitChar (by omega),
                      hexVal_hexDigitChar (by omega), hexVal_hexDigitChar (by omega)]
                    have hv2 : (56320 + (c.toNat - 65536) % 1024) / 4096 % 16 * 4096 +
                        (56320 + (c.toNat - 65536) % 1024) / 256 % 16 * 256 +
                        (56320 + (c.toNat - 65536) % 1024) / 16 % 16 * 16 +
                        (56320 + (c.toNat - 65536) % 1024) % 16 =
                        56320 + (c.toNat - 65536) % 1024 := by omega
                    simp only [hv2]
                    rw [if_pos (by omega)]
                    have hc : Char.ofNat (65536 + (55296 + (c.toNat - 65536) / 1024 - 55296) * 1024 +
                        (56320 + (c.toNat - 65536) % 1024 - 56320)) = c := by
                      have : 65536 + (55296 + (c.toNat - 65536) / 1024 - 55296) * 1024 +
                          (56320 + (c.toNat - 65536) % 1024 - 56320) = c.toNat := by omega
                      rw [this, Char.ofNat_toNat]
                    rw [hc]
                · -- literal character
                  have he : escapeChar c = [c] := by
                    simp [escapeChar, h1, h2, h3, h4, h5, h6, h7, h8]
                  rw [he]
                  show parseStringBody (c :: tl) = _
                  rw [parseStringBody, if_neg h1, if_neg h2, if_neg (by omega)]

theorem parseStringBody_escape (s : List Char) (tl : List Char) :
    parseStringBody (escapeString s ++ quoteChar :: tl) = some (s, tl) := by
  induction s with
  | nil =>
      show parseStringBody (quoteChar :: tl) = _
      rw [parseStringBody, if_pos rfl]
  | cons c cs ih =>
      rw [escapeString_cons, List.append_assoc, parseStringBody_escapeChar, ih]
      rfl

/-! ## Number roundtrip -/

theorem parseDigitsAcc_stop {acc : Nat} {cs : List Char}
    (h : ∀ c cs2, cs = c :: cs2 → isDigitChar c = false) :
    parseDigitsAcc acc cs = (acc, cs) := by
  cases cs with
  | nil => rfl
  | cons c cs2 => rw [parseDigitsAcc, h c cs2 rfl]; simp

theorem parseDigitsAcc_natDigitsFuel :
    ∀ fuel n acc rest, n < fuel →
      parseDigitsAcc acc (natDigitsFuel fuel n ++ rest) =
        parseDigitsAcc (acc * 10 ^ (natDigitsFuel fuel n).length + n) rest := by
  intro fuel
  induction fuel with
  | zero => intro n acc rest h; omega
  | succ fuel ih =>
      intro n acc rest h
      rw [natDigitsFuel]
      split_ifs with h10
      · rw [List.cons_append, List.nil_append, parseDigitsAcc,
          if_pos (isDigitChar_digitChar h10), digitVal_digitChar h10]
        simp
      · have hrec : n / 10 < fuel := by omega
        rw [List.append_assoc, ih (n / 10) acc _ hrec, List.cons_append,
          List.nil_append, parseDigitsAcc,
          if_pos (isDigitChar_digitChar (by omega : n % 10 < 10)),
          digitVal_digitChar (by omega : n % 10 < 10)]
        congr 1
        have hlen : (natDigitsFuel fuel (n / 10) ++ [digitChar (n % 10)]).length =
            (natDigitsFuel fuel (n / 10)).length + 1 := by simp
        rw [hlen]
        have hdm : n / 10 * 10 + n % 10 = n := by omega
        calc (acc * 10 ^ (natDigitsFuel fuel (n / 10)).length + n / 10) * 10 + n % 10
            = acc * 10 ^ (natDigitsFuel fuel (n / 10)).length * 10 +
                (n / 10 * 10 + n % 10) := by ring
          _ = acc * 10 ^ (natDigitsFuel fuel (n / 10)).length * 10 + n := by rw [hdm]
          _ = acc * 10 ^ ((natDigitsFuel fuel (n / 10)).length + 1) + n := by
              rw [pow_succ, Nat.mul_assoc]

theorem natDigitsFuel_head_ne_zero :
    ∀ fuel n cs2, 0 < n → n < fuel → natDigitsFuel fuel n ≠ '0' :: cs2 := by
  intro fuel
  induction fuel with
  | zero => intro n cs2 h0 h; omega
  | succ fuel ih =>
      intro n cs2 h0 h he
      rw [natDigitsFuel] at he
      split_ifs at he with h10
      · simp at he
        have hd : (digitChar n).toNat = 48 + n := digitChar_toNat h10
        rw [he.1] at hd
        have h48 : ('0').toNat = 48 := rfl
        omega
      · have hne : natDigitsFuel fuel (n / 10) ≠ [] :=
          natDigitsFuel_ne_nil (by omega)
        cases hh : natDigitsFuel fuel (n / 10) with
        | nil => exact hne hh
        | cons c0 tl =>
            rw [hh, List.cons_append] at he
            have : c0 = '0' := by injection he with h1 _
            subst this
            exact ih (n / 10) tl (by omega) (by omega) hh

theorem parseNatNum_natDigits {n : Nat} {rest : List Char}
    (hrest : ∀ c cs2, rest = c :: cs2 → isDigitChar c = false) :
    parseNatNum (natDigits n ++ rest) = some (n, rest) := by
  by_cases h0 : n = 0
  · subst h0
    show parseNatNum ('0' :: rest) = _
    rw [parseNatNum, if_pos rfl]
  · have hne : natDigits n ≠ [] := natDigitsFuel_ne_nil (by omega)
    obtain ⟨c, tl, hh⟩ : ∃ c tl, natDigits n = c :: tl := by
      cases hcc : natDigits n with
      | nil => exact absurd hcc hne
      | cons c tl => exact ⟨c, tl, rfl⟩
    obtain ⟨d, hd, hcd⟩ := natDigitsFuel_digits (n + 1) n c
      (by show c ∈ natDigits n; rw [hh]; exact List.mem_cons_self c tl)
    subst hcd
    have hc0 : digitChar d ≠ '0' := by
      intro he
      exact natDigitsFuel_head_ne_zero (n + 1) n tl (by omega) (by omega)
        (by show natDigits n = '0' :: tl; rw [hh, he])
    rw [hh, List.cons_append, parseNatNum, if_neg hc0,
      if_pos (isDigitChar_digitChar hd)]
    have hstep : parseDigitsAcc 0 (digitChar d :: (tl ++ rest)) =
        parseDigitsAcc (digitVal (digitChar d)) (tl ++ rest) := by
      rw [parseDigitsAcc, if_pos (isDigitChar_digitChar hd)]
      simp
    have hall : parseDigitsAcc 0 (natDigits n ++ rest) = (n, rest) := by
      show parseDigitsAcc 0 (natDigitsFuel (n + 1) n ++ rest) = (n, rest)
      rw [parseDigitsAcc_natDigitsFuel (n + 1) n 0 rest (by omega)]
      simp only [Nat.zero_mul, Nat.zero_add]
      exact parseDigitsAcc_stop hrest
    rw [hh, List.cons_append] at hall
    rw [← hstep, hall]

theorem numContinues_of_numSafe {rest : List Char} (hs : numSafe rest) :
    numContinues rest = false := by
  cases rest with
  | nil => rfl
  | cons c tl =>
      obtain ⟨h1, h2, h3, h4⟩ := hs
      simp [numContinues, h2, h3, h4]

theorem parseNumber_intChars {i : Int} {rest : List Char} (hs : numSafe rest) :
    parseNumber (intChars i ++ rest) = some (i, rest) := by
  have hrest : ∀ c cs2, rest = c :: cs2 → isDigitChar c = false := by
    intro c cs2 he
    rw [he] at hs
    exact hs.1
  have hcore : parseIntCore (intChars i ++ rest) = some (i, rest) := by
    by_cases hneg : i < 0
    · rw [intChars, if_pos hneg, List.cons_append, parseIntCore, if_pos rfl,
        parseNatNum_natDigits hrest]
      rw [Option.map_some']
      have hi : -((i.natAbs : Nat) : Int) = i := by omega
      rw [hi]
    · rw [intChars, if_neg hneg]
      have hne : natDigits i.toNat ≠ [] := natDigitsFuel_ne_nil (by omega)
      obtain ⟨c, tl, hh⟩ : ∃ c tl, natDigits i.toNat = c :: tl := by
        cases hcc : natDigits i.toNat with
        | nil => exact absurd hcc hne
        | cons c tl => exact ⟨c, tl, rfl⟩
      obtain ⟨d, hd, hcd⟩ := natDigitsFuel_digits (i.toNat + 1) i.toNat c
        (by show c ∈ natDigits i.toNat; rw [hh]; exact List.mem_cons_self c tl)
      subst hcd
      have hdash : digitChar d ≠ '-' := by
        apply char_ne_of_toNat
        rw [digitChar_toNat hd]
        have h45 : ('-').toNat = 45 := rfl
        omega
      rw [hh, List.cons_append, parseIntCore, if_neg hdash, ← List.cons_append,
        ← hh, parseNatNum_natDigits hrest]
      rw [Option.map_some']
      have hi : ((i.toNat : Nat) : Int) = i := Int.toNat_of_nonneg (by omega)
      rw [hi]
  rw [parseNumber, hcore]
  simp [numContinues_of_numSafe hs]

/-! ## Facts about the printer output -/

theorem hexDigitChar_ascii {d : Nat} (h : d < 16) : (hexDigitChar d).toNat < 128 := by
  unfold hexDigitChar
  split_ifs with h10
  · rw [toNat_ofNat_low (by omega)]
    omega
  · rw [toNat_ofNat_low (by omega)]
    omega

theorem hex4_ascii (n : Nat) : ∀ x ∈ hex4 n, x.toNat < 128 := by
  intro x hx
  simp only [hex4, List.mem_cons, List.not_mem_nil, or_false] at hx
  rcases hx with rfl | rfl | rfl | rfl <;> exact hexDigitChar_ascii (by omega)

theorem escapeChar_ascii (c : Char) : ∀ x ∈ escapeChar c, x.toNat < 128 := by
  intro x hx
  simp only [escapeChar] at hx
  split_ifs at hx with h1 h2 h3 h4 h5 h6 h7 h8 h9
  · simp at hx; rcases hx with rfl | rfl <;> decide
  · simp at hx; rcases hx with rfl | rfl <;> decide
  · simp at hx; rcases hx with rfl | rfl <;> decide
  · simp at hx; rcases hx with rfl | rfl <;> decide
  · simp at hx; rcases hx with rfl | rfl <;> decide
  · simp at hx; rcases hx with rfl | rfl <;> decide
  · simp at hx; rcases hx with rfl | rfl <;> decide
  · simp only [List.mem_cons] at hx
    rcases hx with rfl | rfl | hx
    · decide
    · decide
    · exact hex4_ascii _ x hx
  · simp only [List.cons_append, List.mem_cons, List.mem_append] at hx
    rcases hx with rfl | rfl | hx | hx
    · decide
    · decide
    · exact hex4_ascii _ x hx
    · rcases hx with rfl | rfl | hx
      · decide
      · decide
      · exact hex4_ascii _ x hx
  · simp at hx
    subst hx
    push_neg at h8
    omega

theorem escapeString_ascii (s : List Char) : ∀ x ∈ escapeString s, x.toNat < 128 := by
  intro x hx
  simp only [escapeString, List.mem_flatten, List.mem_map] at hx
  obtain ⟨l, ⟨c, _, rfl⟩, hxl⟩ := hx
  exact escapeChar_ascii c x hxl

theorem natDigits_ascii (n : Nat) : ∀ x ∈ natDigits n, x.toNat < 128 := by
  intro x hx
  obtain ⟨d, hd, rfl⟩ := natDigitsFuel_digits (n + 1) n x hx
  rw [digitChar_toNat hd]
  omega

theorem intChars_ascii (i : Int) : ∀ x ∈ intChars i, x.toNat < 128 := by
  intro x hx
  rw [intChars] at hx
  split_ifs at hx with h
  · simp only [List.mem_cons] at hx
    rcases hx with rfl | hx
    · decide
    · exact natDigits_ascii _ x hx
  · exact natDigits_ascii _ x hx

mutual

theorem dumps_ascii (v : Json) : ∀ x ∈ dumps v, x.toNat < 128 := by
  match v with
  | .null =>
      intro x hx
      rw [show dumps Json.null = ['n', 'u', 'l', 'l'] from rfl] at hx
      exact (by decide : ∀ x ∈ ['n', 'u', 'l', 'l'], x.toNat < 128) x hx
  | .bool true =>
      intro x hx
      rw [show dumps (Json.bool true) = ['t', 'r', 'u', 'e'] from rfl] at hx
      exact (by decide : ∀ x ∈ ['t', 'r', 'u', 'e'], x.toNat < 128) x hx
  | .bool false =>
      intro x hx
      rw [show dumps (Json.bool false) = ['f', 'a', 'l', 's', 'e'] from rfl] at hx
      exact (by decide : ∀ x ∈ ['f', 'a', 'l', 's', 'e'], x.toNat < 128) x hx
  | .num i =>
      intro x hx
      rw [show dumps (Json.num i) = intChars i from rfl] at hx
      exact intChars_ascii i x hx
  | .str s =>
      intro x hx
      rw [show dumps (Json.str s) = quoteChar :: escapeString s.data ++ [quoteChar] from rfl] at hx
      simp only [List.cons_append, List.mem_cons, List.mem_append] at hx
      rcases hx with rfl | hx | hx
      · decide
      · exact escapeString_ascii _ x hx
      · simp at hx; subst hx; decide
  | .arr xs =>
      intro x hx
      rw [show dumps (Json.arr xs) = '[' :: dumpsItems xs ++ [']'] from rfl] at hx
      simp only [List.cons_append, List.mem_cons, List.mem_append] at hx
      rcases hx with rfl | hx | hx
      · decide
      · exact dumpsItems_ascii xs x hx
      · simp at hx; subst hx; decide
  | .obj kvs =>
      intro x hx
      rw [show dumps (Json.obj kvs) = lbraceChar :: dumpsPairs kvs ++ [rbraceChar] from rfl] at hx
      simp only [List.cons_append, List.mem_cons, List.mem_append] at hx
      rcases hx with rfl | hx | hx
      · decide
      · exact dumpsPairs_ascii kvs x hx
      · simp at hx; subst hx; decide

theorem dumpsItems_ascii (xs : List Json) : ∀ x ∈ dumpsItems xs, x.toNat < 128 := by
  match xs with
  | [] => intro x hx; simp [dumpsItems] at hx
  | [v] =>
      intro x hx
      rw [show dumpsItems [v] = dumps v from rfl] at hx
      exact dumps_ascii v x hx
  | v :: w :: rest =>
      intro x hx
      rw [show dumpsItems (v :: w :: rest) = dumps v ++ ',' :: dumpsItems (w :: rest) from rfl] at hx
      simp only [List.mem_append, List.mem_cons] at hx
      rcases hx with hx | rfl | hx
      · exact dumps_ascii v x hx
      · decide
      · exact dumpsItems_ascii (w :: rest) x hx

theorem dumpsPairs_ascii (kvs : List (String × Json)) :
    ∀ x ∈ dumpsPairs kvs, x.toNat < 128 := by
  match kvs with
  | [] => intro x hx; simp [dumpsPairs] at hx
  | [(k, v)] =>
      intro x hx
      rw [show dumpsPairs [(k, v)] =
        quoteChar :: escapeString k.data ++ quoteChar :: ':' :: dumps v from rfl] at hx
      simp only [List.cons_append, List.mem_cons, List.mem_append] at hx
      rcases hx with rfl | hx | rfl | rfl | hx
      · decide
      · exact escapeString_ascii _ x hx
      · decide
      · decide
      · exact dumps_ascii v x hx
  | (k, v) :: q :: rest =>
      intro x hx
      rw [show dumpsPairs ((k, v) :: q :: rest) =
        (quoteChar :: escapeString k.data ++ quoteChar :: ':' :: dumps v) ++
          ',' :: dumpsPairs (q :: rest) from rfl, List.mem_append] at hx
      rcases hx with hx | hx
      · rw [List.cons_append, List.mem_cons] at hx
        rcases hx with rfl | hx
        · decide
        · rw [List.mem_append] at hx
          rcases hx with hx | hx
          · exact escapeString_ascii _ x hx
          · rw [List.mem_cons] at hx
            rcases hx with rfl | hx
            · decide
            · rw [List.mem_cons] at hx
              rcases hx with rfl | hx
              · decide
              · exact dumps_ascii v x hx
      · rw [List.mem_cons] at hx
        rcases hx with rfl | hx
        · decide
        · exact dumpsPairs_ascii (q :: rest) x hx

end

theorem natDigits_head (n : Nat) :
    ∃ d tl, d < 10 ∧ natDigits n = digitChar d :: tl := by
  have hne : natDigits n ≠ [] := natDigitsFuel_ne_nil (by omega)
  obtain ⟨c, tl, hh⟩ : ∃ c tl, natDigits n = c :: tl := by
    cases hcc : natDigits n with
    | nil => exact absurd hcc hne
    | cons c tl => exact ⟨c, tl, rfl⟩
  obtain ⟨d, hd, rfl⟩ := natDigitsFuel_digits (n + 1) n c
    (by show c ∈ natDigits n; rw [hh]; exact List.mem_cons_self c tl)
  exact ⟨d, tl, hd, hh⟩

theorem digitChar_not_special {d : Nat} (h : d < 10) :
    isJsonWs (digitChar d) = false ∧ digitChar d ≠ ']' ∧ digitChar d ≠ rbraceChar := by
  have ht := digitChar_toNat h
  have h32 : (' ').toNat = 32 := rfl
  have h9 : (Char.ofNat 9).toNat = 9 := rfl
  have h10 : (Char.ofNat 10).toNat = 10 := rfl
  have h13 : (Char.ofNat 13).toNat = 13 := rfl
  have h93 : (']').toNat = 93 := rfl
  have h125 : rbraceChar.toNat = 125 := rfl
  refine ⟨?_, char_ne_of_toNat (by omega), char_ne_of_toNat (by omega)⟩
  simp only [isJsonWs, Bool.or_eq_false_iff, decide_eq_false_iff_not]
  exact ⟨⟨⟨char_ne_of_toNat (by omega), char_ne_of_toNat (by omega)⟩,
    char_ne_of_toNat (by omega)⟩, char_ne_of_toNat (by omega)⟩

theorem dumps_head (v : Json) :
    ∃ c tl, dumps v = c :: tl ∧ isJsonWs c = false ∧ c ≠ ']' ∧ c ≠ rbraceChar := by
  cases v with
  | null => exact ⟨'n', ['u', 'l', 'l'], rfl, by decide, by decide, by decide⟩
  | bool b =>
      cases b with
      | true => exact ⟨'t', ['r', 'u', 'e'], rfl, by decide, by decide, by decide⟩
      | false => exact ⟨'f', ['a', 'l', 's', 'e'], rfl, by decide, by decide, by decide⟩
  | num i =>
      by_cases hneg : i < 0
      · refine ⟨'-', natDigits i.natAbs, ?_, by decide, by decide, by decide⟩
        rw [show dumps (Json.num i) = intChars i from rfl, intChars, if_pos hneg]
      · obtain ⟨d, tl, hd, hh⟩ := natDigits_head i.toNat
        obtain ⟨hw, hr, hb⟩ := digitChar_not_special hd
        refine ⟨digitChar d, tl, ?_, hw, hr, hb⟩
        rw [show dumps (Json.num i) = intChars i from rfl, intChars, if_neg hneg, hh]
  | str s =>
      exact ⟨quoteChar, escapeString s.data ++ [quoteChar], rfl,
        by decide, by decide, by decide⟩
  | arr xs =>
      exact ⟨'[', dumpsItems xs ++ [']'], rfl, by decide, by decide, by decide⟩
  | obj kvs =>
      exact ⟨lbraceChar, dumpsPairs kvs ++ [rbraceChar], rfl,
        by decide, by decide, by decide⟩

theorem dumpsItems_cons_suffix (x : Json) (xs : List Json) :
    ∃ sfx, dumpsItems (x :: xs) = dumps x ++ sfx := by
  cases xs with
  | nil => exact ⟨[], by simp [dumpsItems]⟩
  | cons y rest => exact ⟨',' :: dumpsItems (y :: rest), rfl⟩

theorem dumpsPairs_cons_head (p : String × Json) (ps : List (String × Json)) :
    ∃ tl, dumpsPairs (p :: ps) = quoteChar :: tl := by
  cases ps with
  | nil => exact ⟨escapeString p.1.data ++ quoteChar :: ':' :: dumps p.2, rfl⟩
  | cons q rest =>
      exact ⟨escapeString p.1.data ++ quoteChar :: ':' :: dumps p.2 ++
        ',' :: dumpsPairs (q :: rest), by
          rw [show dumpsPairs (p :: q :: rest) =
            (quoteChar :: escapeString p.1.data ++ quoteChar :: ':' :: dumps p.2) ++
              ',' :: dumpsPairs (q :: rest) from ?_]
          · simp
          · cases p with
            | mk k v => rfl⟩

/-! ## Dict building -/

theorem objInsert_fresh {kvs : List (String × Json)} {k : String} {v : Json}
    (h : ∀ p ∈ kvs, p.1 ≠ k) : objInsert kvs k v = kvs ++ [(k, v)] := by
  rw [objInsert, if_neg]
  intro hc
  simp only [List.any_eq_true, decide_eq_true_eq] at hc
  obtain ⟨p, hp, he⟩ := hc
  exact h p hp he

theorem keysUniqueB_cons {p : String × Json} {rest : List (String × Json)}
    (h : keysUniqueB (p :: rest) = true) :
    (∀ q ∈ rest, q.1 ≠ p.1) ∧ keysUniqueB rest = true := by
  rw [keysUniqueB, Bool.and_eq_true] at h
  obtain ⟨h1, h2⟩ := h
  refine ⟨?_, h2⟩
  intro q hq he
  rw [Bool.not_eq_true'] at h1
  have : rest.any (fun q => decide (q.1 = p.1)) = true := by
    simp only [List.any_eq_true, decide_eq_true_eq]
    exact ⟨q, hq, he⟩
  rw [this] at h1
  simp at h1

theorem foldl_objInsert :
    ∀ (ps acc : List (String × Json)), keysUniqueB ps = true →
      (∀ p ∈ ps, ∀ q ∈ acc, q.1 ≠ p.1) →
      ps.foldl (fun acc p => objInsert acc p.1 p.2) acc = acc ++ ps := by
  intro ps
  induction ps with
  | nil => intro acc _ _; simp
  | cons p ps ih =>
      intro acc hu hd
      obtain ⟨hu1, hu2⟩ := keysUniqueB_cons hu
      rw [List.foldl_cons,
        objInsert_fresh (fun q hq => hd p (List.mem_cons_self p ps) q hq)]
      rw [ih (acc ++ [p]) hu2 ?_]
      · simp
      · intro r hr q hq
        rw [List.mem_append] at hq
        rcases hq with hq | hq
        · exact hd r (List.mem_cons_of_mem p hr) q hq
        · simp at hq
          subst hq
          exact fun he => hu1 r hr he.symm

theorem buildDict_unique {ps : List (String × Json)}
    (h : keysUniqueB ps = true) : buildDict ps = ps := by
  rw [buildDict, foldl_objInsert ps [] h (by simp)]
  simp

/-! ## Fuel bounds -/

theorem jneed_pos (v : Json) : 1 ≤ jneed v := by
  cases v with
  | null => simp [jneed]
  | bool b => simp [jneed]
  | num i => simp [jneed]
  | str s => simp [jneed]
  | arr xs => cases xs <;> simp [jneed]
  | obj kvs => cases kvs <;> simp [jneed]

mutual

theorem jneed_le (v : Json) : jneed v ≤ (dumps v).length := by
  match v with
  | .null => simp [jneed, dumps]
  | .bool true => simp [jneed, dumps]
  | .bool false => simp [jneed, dumps]
  | .num i =>
      have h1 : natDigits i.natAbs ≠ [] := natDigitsFuel_ne_nil (by omega)
      have h2 : natDigits i.toNat ≠ [] := natDigitsFuel_ne_nil (by omega)
      rw [show dumps (Json.num i) = intChars i from rfl, jneed, intChars]
      split_ifs with h
      · simp
      · have := List.length_pos.mpr h2
        omega
  | .str s => simp [jneed, dumps]
  | .arr [] => simp [jneed, dumps, dumpsItems]
  | .arr (x :: xs) =>
      have h := itemsNeed_le (x :: xs)
      rw [show dumps (Json.arr (x :: xs)) =
        '[' :: dumpsItems (x :: xs) ++ [']'] from rfl, jneed]
      simp only [List.length_cons, List.length_append, List.length_cons,
        List.length_nil]
      omega
  | .obj [] => simp [jneed, dumps, dumpsPairs]
  | .obj (p :: ps) =>
      have h := pairsNeed_le (p :: ps)
      rw [show dumps (Json.obj (p :: ps)) =
        lbraceChar :: dumpsPairs (p :: ps) ++ [rbraceChar] from rfl, jneed]
      simp only [List.length_cons, List.length_append, List.length_nil]
      omega

theorem itemsNeed_le (xs : List Json) :
    itemsNeed xs ≤ (dumpsItems xs).length + 1 := by
  match xs with
  | [] => simp [itemsNeed, dumpsItems]
  | [x] =>
      have h := jneed_le x
      rw [show dumpsItems [x] = dumps x from rfl, itemsNeed, itemsNeed]
      omega
  | x :: y :: rest =>
      have h1 := jneed_le x
      have h2 := itemsNeed_le (y :: rest)
      rw [show dumpsItems (x :: y :: rest) =
        dumps x ++ ',' :: dumpsItems (y :: rest) from rfl, itemsNeed]
      simp only [List.length_append, List.length_cons]
      omega

theorem pairsNeed_le (kvs : List (String × Json)) :
    pairsNeed kvs ≤ (dumpsPairs kvs).length + 1 := by
  match kvs with
  | [] => simp [pairsNeed, dumpsPairs]
  | [(k, v)] =>
      have h := jneed_le v
      rw [show dumpsPairs [(k, v)] =
        quoteChar :: escapeString k.data ++ quoteChar :: ':' :: dumps v from rfl,
        pairsNeed, pairsNeed]
      simp only [List.cons_append, List.length_cons, List.length_append]
      omega
  | (k, v) :: q :: rest =>
      have h1 := jneed_le v
      have h2 := pairsNeed_le (q :: rest)
      rw [show dumpsPairs ((k, v) :: q :: rest) =
        (quoteChar :: escapeString k.data ++ quoteChar :: ':' :: dumps v) ++
          ',' :: dumpsPairs (q :: rest) from rfl, pairsNeed]
      simp only [List.cons_append, List.length_append, List.length_cons]
      omega

end

/-! ## Parser step lemmas

Each lemma exposes one evaluation step of the fueled parser, with the
equations for already-evaluated stages taken as hypotheses, so that the
roundtrip proof can rewrite stage by stage. -/

theorem string_mk_data (s : String) : String.mk s.data = s := rfl

theorem skipWs_dumps (v : Json) (r : List Char) :
    skipWs (dumps v ++ r) = dumps v ++ r := by
  obtain ⟨c, tl, hh, hw, _, _⟩ := dumps_head v
  rw [hh, List.cons_append, skipWs_cons hw]

theorem digitChar_not_valueHead {d : Nat} (h : d < 10) :
    digitChar d ≠ 'n' ∧ digitChar d ≠ 't' ∧ digitChar d ≠ 'f' ∧
      digitChar d ≠ quoteChar ∧ digitChar d ≠ '[' ∧ digitChar d ≠ lbraceChar := by
  have ht := digitChar_toNat h
  have e1 : ('n').toNat = 110 := rfl
  have e2 : ('t').toNat = 116 := rfl
  have e3 : ('f').toNat = 102 := rfl
  have e4 : quoteChar.toNat = 34 := rfl
  have e5 : ('[').toNat = 91 := rfl
  have e6 : lbraceChar.toNat = 123 := rfl
  exact ⟨char_ne_of_toNat (by omega), char_ne_of_toNat (by omega),
    char_ne_of_toNat (by omega), char_ne_of_toNat (by omega),
    char_ne_of_toNat (by omega), char_ne_of_toNat (by omega)⟩

theorem pvNull (fuel : Nat) (r : List Char) :
    parseValue (fuel + 1) ('n' :: 'u' :: 'l' :: 'l' :: r) = some (.null, r) := rfl

theorem pvTrue (fuel : Nat) (r : List Char) :
    parseValue (fuel + 1) ('t' :: 'r' :: 'u' :: 'e' :: r) = some (.bool true, r) := rfl

theorem pvFalse (fuel : Nat) (r : List Char) :
    parseValue (fuel + 1) ('f' :: 'a' :: 'l' :: 's' :: 'e' :: r) =
      some (.bool false, r) := rfl

theorem pvStr (fuel : Nat) (r : List Char) :
    parseValue (fuel + 1) (quoteChar :: r) =
      (parseStringBody r).map (fun p => (.str (String.mk p.1), p.2)) := rfl

theorem pvNum (fuel : Nat) {c : Char} (r : List Char)
    (h1 : c ≠ 'n') (h2 : c ≠ 't') (h3 : c ≠ 'f') (h4 : c ≠ quoteChar)
    (h5 : c ≠ '[') (h6 : c ≠ lbraceChar) :
    parseValue (fuel + 1) (c :: r) =
      (parseNumber (c :: r)).map (fun p => (.num p.1, p.2)) := by
  rw [parseValue, if_neg h1, if_neg h2, if_neg h3, if_neg h4, if_neg h5, if_neg h6]

theorem pvArr (fuel : Nat) {r : List Char} {c1 : Char} {r1 : List Char}
    (hskip : skipWs r = c1 :: r1) :
    parseValue (fuel + 1) ('[' :: r) =
      (if c1 = ']' then some (.arr [], r1)
       else (parseItems fuel (c1 :: r1)).map (fun p => (.arr p.1, p.2))) := by
  have h0 : parseValue (fuel + 1) ('[' :: r) =
      (match skipWs r with
       | c1 :: r1 =>
           if c1 = ']' then some (.arr [], r1)
           else (parseItems fuel (c1 :: r1)).map (fun p => (.arr p.1, p.2))
       | [] => none) := rfl
  rw [h0, hskip]

theorem pvObj (fuel : Nat) {r : List Char} {c1 : Char} {r1 : List Char}
    (hskip : skipWs r = c1 :: r1) :
    parseValue (fuel + 1) (lbraceChar :: r) =
      (if c1 = rbraceChar then some (.obj [], r1)
       else (parsePairs fuel (c1 :: r1)).map
         (fun p => (.obj (buildDict p.1), p.2))) := by
  have h0 : parseValue (fuel + 1) (lbraceChar :: r) =
      (match skipWs r with
       | c1 :: r1 =>
           if c1 = rbraceChar then some (.obj [], r1)
           else (parsePairs fuel (c1 :: r1)).map
             (fun p => (.obj (buildDict p.1), p.2))
       | [] => none) := rfl
  rw [h0, hskip]

theorem piStep (fuel : Nat) {cs : List Char} {x : Json} {r2 : List Char}
    {c : Char} {r3 : List Char}
    (hv : parseValue fuel (skipWs cs) = some (x, r2))
    (hskip : skipWs r2 = c :: r3) :
    parseItems (fuel + 1) cs =
      (if c = ',' then (parseItems fuel r3).map (fun p => (x :: p.1, p.2))
       else if c = ']' then some ([x], r3)
       else none) := by
  have h0 : parseItems (fuel + 1) cs =
      (match skipWs r2 with
       | c :: r3 =>
           if c = ',' then (parseItems fuel r3).map (fun p => (x :: p.1, p.2))
           else if c = ']' then some ([x], r3)
           else none
       | [] => none) := by
    rw [parseItems, hv]
  rw [h0, hskip]

theorem ppQuote (fuel : Nat) {cs : List Char} {r0 : List Char}
    (hq : skipWs cs = quoteChar :: r0) :
    parsePairs (fuel + 1) cs =
      (match parseStringBody r0 with
       | some (k, r1) =>
           match skipWs r1 with
           | c1 :: r2 =>
               if c1 = ':' then
                 match parseValue fuel (skipWs r2) with
                 | some (v, r3) =>
                     match skipWs r3 with
                     | c2 :: r4 =>
                         if c2 = ',' then
                           (parsePairs fuel r4).map
                             (fun p => ((String.mk k, v) :: p.1, p.2))
                         else if c2 = rbraceChar then some ([(String.mk k, v)], r4)
                         else none
                     | [] => none
                 | none => none
               else none
           | [] => none
       | none => none) := by
  rw [parsePairs, hq]
  rfl

theorem ppKey (fuel : Nat) {cs : List Char} {r0 : List Char} {k : List Char}
    {r1 : List Char}
    (hq : skipWs cs = quoteChar :: r0)
    (hk : parseStringBody r0 = some (k, r1)) :
    parsePairs (fuel + 1) cs =
      (match skipWs r1 with
       | c1 :: r2 =>
           if c1 = ':' then
             match parseValue fuel (skipWs r2) with
             | some (v, r3) =>
                 match skipWs r3 with
                 | c2 :: r4 =>
                     if c2 = ',' then
                       (parsePairs fuel r4).map (fun p => ((String.mk k, v) :: p.1, p.2))
                     else if c2 = rbraceChar then some ([(String.mk k, v)], r4)
                     else none
                 | [] => none
             | none => none
           else none
       | [] => none) := by
  rw [ppQuote fuel hq, hk]

theorem ppVal (fuel : Nat) {cs r0 : List Char} {k : List Char} {r1 r2 : List Char}
    {v : Json} {r3 : List Char}
    (hq : skipWs cs = quoteChar :: r0)
    (hk : parseStringBody r0 = some (k, r1))
    (hc : skipWs r1 = ':' :: r2)
    (hv : parseValue fuel (skipWs r2) = some (v, r3)) :
    parsePairs (fuel + 1) cs =
      (match skipWs r3 with
       | c2 :: r4 =>
           if c2 = ',' then
             (parsePairs fuel r4).map (fun p => ((String.mk k, v) :: p.1, p.2))
           else if c2 = rbraceChar then some ([(String.mk k, v)], r4)
           else none
       | [] => none) := by
  rw [ppKey fuel hq hk, hc]
  have h0 : (match ':' :: r2 with
       | c1 :: r2 =>
           if c1 = ':' then
             match parseValue fuel (skipWs r2) with
             | some (v, r3) =>
                 match skipWs r3 with
                 | c2 :: r4 =>
                     if c2 = ',' then
                       (parsePairs fuel r4).map (fun p => ((String.mk k, v) :: p.1, p.2))
                     else if c2 = rbraceChar then some ([(String.mk k, v)], r4)
                     else none
                 | [] => none
             | none => none
           else none
       | [] => none : Option (List (String × Json) × List Char)) =
      ((match parseValue fuel (skipWs r2) with
       | some (v, r3) =>
           match skipWs r3 with
           | c2 :: r4 =>
               if c2 = ',' then
                 (parsePairs fuel r4).map (fun p => ((String.mk k, v) :: p.1, p.2))
               else if c2 = rbraceChar then some ([(String.mk k, v)], r4)
               else none
           | [] => none
       | none => none : Option (List (String × Json) × List Char))) := rfl
  rw [h0, hv]

theorem ppEnd (fuel : Nat) {cs r0 : List Char} {k : List Char} {r1 r2 : List Char}
    {v : Json} {r3 : List Char} {c2 : Char} {r4 : List Char}
    (hq : skipWs cs = quoteChar :: r0)
    (hk : parseStringBody r0 = some (k, r1))
    (hc : skipWs r1 = ':' :: r2)
    (hv : parseValue fuel (skipWs r2) = some (v, r3))
    (he : skipWs r3 = c2 :: r4) :
    parsePairs (fuel + 1) cs =
      (if c2 = ',' then
         (parsePairs fuel r4).map (fun p => ((String.mk k, v) :: p.1, p.2))
       else if c2 = rbraceChar then some ([(String.mk k, v)], r4)
       else none) := by
  rw [ppVal fuel hq hk hc hv, he]

/-! ## The parser-printer roundtrip -/

mutual

theorem parseValue_dumps : ∀ (fuel : Nat) (v : Json) (rest : List Char),
    jneed v ≤ fuel → jsonWF v = true → numSafe rest →
    parseValue fuel (dumps v ++ rest) = some (v, rest)
  | 0, v, _ => fun hneed _ _ => absurd hneed (by have := jneed_pos v; omega)
  | fuel + 1, v, rest => fun hneed hwf hnum => by
      cases v with
      | null => exact pvNull fuel rest
      | bool b =>
          cases b with
          | true => exact pvTrue fuel rest
          | false => exact pvFalse fuel rest
      | num i =>
          have hd0 : dumps (Json.num i) = intChars i := rfl
          rw [hd0]
          by_cases hneg : i < 0
          · have he : intChars i = '-' :: natDigits i.natAbs := by
              rw [intChars, if_pos hneg]
            have n1 : ('-' : Char) ≠ 'n' := by decide
            have n2 : ('-' : Char) ≠ 't' := by decide
            have n3 : ('-' : Char) ≠ 'f' := by decide
            have n4 : ('-' : Char) ≠ quoteChar := by decide
            have n5 : ('-' : Char) ≠ '[' := by decide
            have n6 : ('-' : Char) ≠ lbraceChar := by decide
            rw [he, List.cons_append, pvNum fuel _ n1 n2 n3 n4 n5 n6,
              ← List.cons_append, ← he, parseNumber_intChars hnum]
            rfl
          · obtain ⟨d, tl, hd, hh⟩ := natDigits_head i.toNat
            have he : intChars i = digitChar d :: tl := by
              rw [intChars, if_neg hneg, hh]
            obtain ⟨n1, n2, n3, n4, n5, n6⟩ := digitChar_not_valueHead hd
            rw [he, List.cons_append, pvNum fuel _ n1 n2 n3 n4 n5 n6,
              ← List.cons_append, ← he, parseNumber_intChars hnum]
            rfl
      | str s =>
          have hd0 : dumps (Json.str s) ++ rest =
              quoteChar :: (escapeString s.data ++ quoteChar :: rest) := by
            rw [show dumps (Json.str s) =
              quoteChar :: escapeString s.data ++ [quoteChar] from rfl]
            simp [List.append_assoc]
          rw [hd0, pvStr, parseStringBody_escape s.data rest]
          rfl
      | arr xs =>
          cases xs with
          | nil =>
              show parseValue (fuel + 1) ('[' :: ']' :: rest) = some (.arr [], rest)
              rw [pvArr fuel (skipWs_cons (by decide)), if_pos rfl]
          | cons x t =>
              have hd0 : dumps (Json.arr (x :: t)) ++ rest =
                  '[' :: (dumpsItems (x :: t) ++ ']' :: rest) := by
                rw [show dumps (Json.arr (x :: t)) =
                  '[' :: dumpsItems (x :: t) ++ [']'] from rfl]
                simp [List.append_assoc]
              obtain ⟨sfx, hsfx⟩ := dumpsItems_cons_suffix x t
              obtain ⟨c, tl, hh, hw, hnb, _⟩ := dumps_head x
              have hshape : dumpsItems (x :: t) ++ ']' :: rest =
                  c :: ((tl ++ sfx) ++ ']' :: rest) := by
                rw [hsfx, hh]
                simp [List.append_assoc]
              rw [jneed] at hneed
              rw [jsonWF] at hwf
              rw [hd0, pvArr fuel (by rw [hshape, skipWs_cons hw]), if_neg hnb,
                ← hshape,
                parseItems_dumps fuel (x :: t) rest (by omega) hwf (by simp)]
              rfl
      | obj kvs =>
          cases kvs with
          | nil =>
              show parseValue (fuel + 1) (lbraceChar :: rbraceChar :: rest) =
                some (.obj [], rest)
              rw [pvObj fuel (skipWs_cons (by decide)), if_pos rfl]
          | cons p ps =>
              have hd0 : dumps (Json.obj (p :: ps)) ++ rest =
                  lbraceChar :: (dumpsPairs (p :: ps) ++ rbraceChar :: rest) := by
                rw [show dumps (Json.obj (p :: ps)) =
                  lbraceChar :: dumpsPairs (p :: ps) ++ [rbraceChar] from rfl]
                simp [List.append_assoc]
              obtain ⟨tl, hh⟩ := dumpsPairs_cons_head p ps
              have hshape : dumpsPairs (p :: ps) ++ rbraceChar :: rest =
                  quoteChar :: (tl ++ rbraceChar :: rest) := by
                rw [hh]
                simp
              rw [jneed] at hneed
              rw [jsonWF, Bool.and_eq_true] at hwf
              rw [hd0, pvObj fuel (by rw [hshape, skipWs_cons (by decide)]),
                if_neg (by decide), ← hshape,
                parsePairs_dumps fuel (p :: ps) rest (by omega) hwf.2 (by simp),
                Option.map_some', buildDict_unique hwf.1]

theorem parseItems_dumps : ∀ (fuel : Nat) (xs : List Json) (rest : List Char),
    itemsNeed xs ≤ fuel → jsonListWF xs = true → xs ≠ [] →
    parseItems fuel (dumpsItems xs ++ ']' :: rest) = some (xs, rest)
  | 0, xs, rest => fun hneed _ hne => by
      cases xs with
      | nil => exact absurd rfl hne
      | cons x t =>
          simp only [itemsNeed] at hneed
          have := jneed_pos x
          omega
  | fuel + 1, xs, rest => fun hneed hwf hne => by
      cases xs with
      | nil => exact absurd rfl hne
      | cons x t =>
          rw [jsonListWF, Bool.and_eq_true] at hwf
          cases t with
          | nil =>
              have hv : parseValue fuel (skipWs (dumpsItems [x] ++ ']' :: rest)) =
                  some (x, ']' :: rest) := by
                rw [show dumpsItems [x] = dumps x from rfl, skipWs_dumps]
                exact parseValue_dumps fuel x (']' :: rest)
                  (by simp only [itemsNeed] at hneed; omega) hwf.1
                  ⟨by decide, by decide, by decide, by decide⟩
              rw [piStep fuel hv (skipWs_cons (by decide)), if_neg (by decide),
                if_pos rfl]
          | cons y t2 =>
              have heq : dumpsItems (x :: y :: t2) ++ ']' :: rest =
                  dumps x ++ (',' :: (dumpsItems (y :: t2) ++ ']' :: rest)) := by
                rw [show dumpsItems (x :: y :: t2) =
                  dumps x ++ ',' :: dumpsItems (y :: t2) from rfl]
                simp [List.append_assoc]
              have hv : parseValue fuel
                  (skipWs (dumpsItems (x :: y :: t2) ++ ']' :: rest)) =
                  some (x, ',' :: (dumpsItems (y :: t2) ++ ']' :: rest)) := by
                rw [heq, skipWs_dumps]
                exact parseValue_dumps fuel x _
                  (by simp only [itemsNeed] at hneed; omega) hwf.1
                  ⟨by decide, by decide, by decide, by decide⟩
              rw [piStep fuel hv (skipWs_cons (by decide)), if_pos rfl,
                parseItems_dumps fuel (y :: t2) rest
                  (by simp only [itemsNeed] at hneed ⊢; have := jneed_pos x; omega)
                  hwf.2 (by simp)]
              rfl

theorem parsePairs_dumps : ∀ (fuel : Nat) (kvs : List (String × Json))
      (rest : List Char),
    pairsNeed kvs ≤ fuel → jsonPairsWF kvs = true → kvs ≠ [] →
    parsePairs fuel (dumpsPairs kvs ++ rbraceChar :: rest) = some (kvs, rest)
  | 0, kvs, rest => fun hneed _ hne => by
      cases kvs with
      | nil => exact absurd rfl hne
      | cons p ps =>
          simp only [pairsNeed] at hneed
          have := jneed_pos p.2
          omega
  | fuel + 1, kvs, rest => fun hneed hwf hne => by
      cases kvs with
      | nil => exact absurd rfl hne
      | cons p ps =>
          obtain ⟨k, v⟩ := p
          rw [jsonPairsWF, Bool.and_eq_true] at hwf
          cases ps with
          | nil =>
              have heq : dumpsPairs [(k, v)] ++ rbraceChar :: rest =
                  quoteChar :: (escapeString k.data ++
                    quoteChar :: (':' :: (dumps v ++ rbraceChar :: rest))) := by
                rw [show dumpsPairs [(k, v)] = quoteChar :: escapeString k.data ++
                  quoteChar :: ':' :: dumps v from rfl]
                simp [List.append_assoc]
              have hq : skipWs (dumpsPairs [(k, v)] ++ rbraceChar :: rest) =
                  quoteChar :: (escapeString k.data ++
                    quoteChar :: (':' :: (dumps v ++ rbraceChar :: rest))) := by
                rw [heq, skipWs_cons (by decide)]
              have hk2 := parseStringBody_escape k.data
                (':' :: (dumps v ++ rbraceChar :: rest))
              have hc : skipWs (':' :: (dumps v ++ rbraceChar :: rest)) =
                  ':' :: (dumps v ++ rbraceChar :: rest) := skipWs_cons (by decide)
              have hv2 : parseValue fuel (skipWs (dumps v ++ rbraceChar :: rest)) =
                  some (v, rbraceChar :: rest) := by
                rw [skipWs_dumps]
                exact parseValue_dumps fuel v _
                  (by simp only [pairsNeed] at hneed; omega) hwf.1
                  ⟨by decide, by decide, by decide, by decide⟩
              have he2 : skipWs (rbraceChar :: rest) = rbraceChar :: rest :=
                skipWs_cons (by decide)
              rw [ppEnd fuel hq hk2 hc hv2 he2, if_neg (by decide), if_pos rfl,
                string_mk_data]
          | cons q ps2 =>
              have heq : dumpsPairs ((k, v) :: q :: ps2) ++ rbraceChar :: rest =
                  quoteChar :: (escapeString k.data ++ quoteChar ::
                    (':' :: (dumps v ++
                      ',' :: (dumpsPairs (q :: ps2) ++ rbraceChar :: rest)))) := by
                rw [show dumpsPairs ((k, v) :: q :: ps2) =
                  (quoteChar :: escapeString k.data ++ quoteChar :: ':' :: dumps v) ++
                    ',' :: dumpsPairs (q :: ps2) from rfl]
                simp [List.append_assoc]
              have hq : skipWs (dumpsPairs ((k, v) :: q :: ps2) ++
                    rbraceChar :: rest) =
                  quoteChar :: (escapeString k.data ++ quoteChar ::
                    (':' :: (dumps v ++
                      ',' :: (dumpsPairs (q :: ps2) ++ rbraceChar :: rest)))) := by
                rw [heq, skipWs_cons (by decide)]
              have hk2 := parseStringBody_escape k.data
                (':' :: (dumps v ++ ',' :: (dumpsPairs (q :: ps2) ++ rbraceChar :: rest)))
              have hc : skipWs (':' :: (dumps v ++
                    ',' :: (dumpsPairs (q :: ps2) ++ rbraceChar :: rest))) =
                  ':' :: (dumps v ++
                    ',' :: (dumpsPairs (q :: ps2) ++ rbraceChar :: rest)) :=
                skipWs_cons (by decide)
              have hv2 : parseValue fuel (skipWs (dumps v ++
                    ',' :: (dumpsPairs (q :: ps2) ++ rbraceChar :: rest))) =
                  some (v, ',' :: (dumpsPairs (q :: ps2) ++ rbraceChar :: rest)) := by
                rw [skipWs_dumps]
                exact parseValue_dumps fuel v _
                  (by simp only [pairsNeed] at hneed; omega) hwf.1
                  ⟨by decide, by decide, by decide, by decide⟩
              have he2 : skipWs (',' :: (dumpsPairs (q :: ps2) ++
                    rbraceChar :: rest)) =
                  ',' :: (dumpsPairs (q :: ps2) ++ rbraceChar :: rest) :=
                skipWs_cons (by decide)
              rw [ppEnd fuel hq hk2 hc hv2 he2, if_pos rfl,
                parsePairs_dumps fuel (q :: ps2) rest
                  (by simp only [pairsNeed] at hneed ⊢; have := jneed_pos v; omega)
                  hwf.2 (by simp)]
              rfl

end

theorem loads_dumps {v : Json} (hwf : jsonWF v = true) : loads (dumps v) = some v := by
  rw [loads]
  have h1 : skipWs (dumps v) = dumps v := by
    obtain ⟨c, tl, hh, hw, _, _⟩ := dumps_head v
    rw [hh, skipWs_cons hw]
  have h2 : parseValue ((dumps v).length + 1) (dumps v ++ []) = some (v, []) :=
    parseValue_dumps _ v [] (by have := jneed_le v; omega) hwf trivial
  rw [List.append_nil] at h2
  rw [h1, h2]
  rfl

/-! ## Decoding an encoded token -/

theorem segmentJson_roundtrip {j : Json} (hwf : jsonWF j = true) :
    segmentJson (b64urlEncode (utf8Encode (dumps j))) = some j := by
  have hascii := dumps_ascii j
  have hbytes : ∀ b ∈ utf8Encode (dumps j), b < 256 := by
    rw [utf8Encode_ascii hascii]
    intro b hbm
    rw [List.mem_map] at hbm
    obtain ⟨c, hc, rfl⟩ := hbm
    have := hascii c hc
    omega
  rw [segmentJson, b64urlDecode_encode hbytes]
  show (utf8Decode (utf8Encode (dumps j))).bind loads = some j
  rw [utf8Encode_ascii hascii, utf8Decode_ascii hascii]
  show loads (dumps j) = some j
  exact loads_dumps hwf

theorem b64urlEncode_no_dot {bs : List Nat} (hb : ∀ b ∈ bs, b < 256) :
    ∀ c ∈ b64urlEncode bs, c ≠ '.' :=
  fun c hc => b64UrlChar_ne_dot (b64EncodeGroups_alphabet hb c hc)

theorem utf8Encode_dumps_bytes (j : Json) :
    ∀ b ∈ utf8Encode (dumps j), b < 256 := by
  have hascii := dumps_ascii j
  rw [utf8Encode_ascii hascii]
  intro b hbm
  rw [List.mem_map] at hbm
  obtain ⟨c, hc, rfl⟩ := hbm
  have := hascii c hc
  omega

theorem checkSignature_obj (pkvs : List (String × Json)) (sig : List Nat) :
    checkSignature (Json.obj pkvs) sig sig = .ok pkvs := by
  rw [checkSignature, if_pos rfl]

set_option maxHeartbeats 2000000 in
theorem decodeCore_encode (payload : List (String × Json)) (secret : String)
    (hwf : jsonWF (Json.obj payload) = true) :
    decodeCore (encodeHs256 payload secret) secret = .ok payload := by
  have hwfH : jsonWF (Json.obj [("alg", Json.str "HS256"), ("typ", Json.str "JWT")]) =
      true := rfl
  set hb : List Char := b64urlEncode (utf8Encode (dumps
    (Json.obj [("alg", Json.str "HS256"), ("typ", Json.str "JWT")]))) with hbdef
  set pb : List Char := b64urlEncode (utf8Encode (dumps (Json.obj payload))) with pbdef
  set sb : List Char := b64urlEncode (hmacSha256 (utf8Encode secret.data)
    ((sigInputChars hb pb).map Char.toNat)) with sbdef
  have halpha_hb : ∀ c ∈ hb, isB64UrlChar c = true := by
    rw [hbdef]
    exact b64EncodeGroups_alphabet (utf8Encode_dumps_bytes _)
  have halpha_pb : ∀ c ∈ pb, isB64UrlChar c = true := by
    rw [pbdef]
    exact b64EncodeGroups_alphabet (utf8Encode_dumps_bytes _)
  have hdot_hb : ∀ c ∈ hb, c ≠ '.' := fun c hc => b64UrlChar_ne_dot (halpha_hb c hc)
  have hdot_pb : ∀ c ∈ pb, c ≠ '.' := fun c hc => b64UrlChar_ne_dot (halpha_pb c hc)
  have hdot_sb : ∀ c ∈ sb, c ≠ '.' := by
    rw [sbdef]
    exact b64urlEncode_no_dot (hmacSha256_bytes_lt _ _)
  have hdata : (encodeHs256 payload secret).data = hb ++ '.' :: (pb ++ '.' :: sb) := rfl
  have hsplit : splitDots (encodeHs256 payload secret).data = [hb, pb, sb] := by
    rw [hdata, splitDots_append _ hdot_hb, splitDots_append _ hdot_pb,
      splitDots_no_dot hdot_sb]
  have hH : segmentJson hb =
      some (Json.obj [("alg", Json.str "HS256"), ("typ", Json.str "JWT")]) := by
    rw [hbdef]
    exact segmentJson_roundtrip hwfH
  have hP : segmentJson pb = some (Json.obj payload) := by
    rw [pbdef]
    exact segmentJson_roundtrip hwf
  have hascii : ((sigInputChars hb pb).all (fun c => decide (c.toNat < 128))) = true := by
    rw [List.all_eq_true]
    intro c hc
    simp only [sigInputChars, List.mem_append, List.mem_cons] at hc
    rw [decide_eq_true_eq]
    rcases hc with hc | rfl | hc
    · exact b64UrlChar_ascii (halpha_hb c hc)
    · decide
    · exact b64UrlChar_ascii (halpha_pb c hc)
  have hsb2 : b64urlDecode sb = some (hmacSha256 (utf8Encode secret.data)
      ((sigInputChars hb pb).map Char.toNat)) := by
    rw [sbdef]
    exact b64urlDecode_encode (hmacSha256_bytes_lt _ _)
  clear_value sb pb hb
  have s1 : decodeCore (encodeHs256 payload secret) secret =
      decodeParts hb pb sb secret := by
    rw [decodeCore, hsplit]
    rfl
  have s2 : decodeParts hb pb sb secret =
      decodeWithJson (Json.obj [("alg", Json.str "HS256"), ("typ", Json.str "JWT")])
        (Json.obj payload) hb pb sb secret := by
    rw [decodeParts, hH, hP]
  have s3 : decodeWithJson
      (Json.obj [("alg", Json.str "HS256"), ("typ", Json.str "JWT")])
      (Json.obj payload) hb pb sb secret =
      checkSignature (Json.obj payload)
        (hmacSha256 (utf8Encode secret.data) ((sigInputChars hb pb).map Char.toNat))
        (hmacSha256 (utf8Encode secret.data) ((sigInputChars hb pb).map Char.toNat)) := by
    rw [decodeWithJson, hascii, hsb2]
    rfl
  rw [s1, s2, s3, checkSignature_obj]

/-- Shared helper: decoding an encoded token succeeds with the original
payload whenever the payload JSON is well formed and the claim checks pass
at the given clock and expectations. -/
theorem decodeEncode_ok (payload : List (String × Json)) (secret : String)
    (now leeway : Int) (eIss eAud : Option String)
    (hwf : jsonWF (Json.obj payload) = true)
    (hcl : claimChecks payload now leeway eIss eAud = .ok ()) :
    decodeAndVerifyHs256 (encodeHs256 payload secret) secret now leeway eIss eAud
      = .ok payload := by
  rw [decodeAndVerifyHs256, decodeCore_encode payload secret hwf]
  dsimp only
  rw [hcl]

/-- Shared helper: decoding an encoded token surfaces exactly the error of
the claim checks when those fail, the structural verification having
succeeded. -/
theorem decodeEncode_error (payload : List (String × Json)) (secret : String)
    (now leeway : Int) (eIss eAud : Option String) (err : DecodeFailure)
    (hwf : jsonWF (Json.obj payload) = true)
    (hcl : claimChecks payload now leeway eIss eAud = .error err) :
    decodeAndVerifyHs256 (encodeHs256 payload secret) secret now leeway eIss eAud
      = .error err := by
  rw [decodeAndVerifyHs256, decodeCore_encode payload secret hwf]
  dsimp only
  rw [hcl]

/-! ## The claims -/

/-- C1: the invariant that every observable record with a terminal status
(succeeded, failed, stopped, terminated) has finished_at set fails on the
generic signal-failure branch of RunManager.stop: a freshly started run,
moved to stopping by stop and then hit by a generic exception while
delivering SIGTERM, is left at the terminal status failed with finished_at
still null, and that record is returned to the caller. -/
theorem c1_terminal_status_without_finished_at :
    ∃ r : RunRecord,
      stopEntry (some (spawnSuccess
        (mkStartRecord "r1" "demo.py" ["python", "-u", "demo.py"] 0
          "out.log" "err.log") 42 1)) = StopEntry.proceed r ∧
      (stopSignalFailure r "boom").status.isTerminal = true ∧
      (stopSignalFailure r "boom").finished_at = none :=
  ⟨_, rfl, rfl, rfl⟩

/-- C2 counterexample: read_logs with tail_bytes zero does not return the
empty string: on a one-byte stdout log it returns the whole content. -/
theorem c2_tail_zero_counterexample :
    readLogs asciiDecode
      (fun p => if p = "out.log" then some [97] else none)
      (fun i => if i = "r1" then
        some (mkStartRecord "r1" "demo.py" [] 0 "out.log" "err.log") else none)
      "r1" "stdout" 0
      = some [("stdout", "a")] ∧ ("a" : String) ≠ "" := by
  refine ⟨rfl, by decide⟩

/-- C2 as corrected: with tail_bytes zero the guard tail_bytes greater
than zero of the tail helper skips the seek, so the read starts at
position zero and read_logs returns the full decoded content of every
selected stream, not the empty string: under stream stdout the whole
stdout log, under stderr the whole stderr log, and under both the whole
content of each. -/
theorem c2_tail_zero_reads_whole_file (decode : List Nat → String)
    (fs : FileStore) (runs : String → Option RunRecord) (runId : String)
    (r : RunRecord) (dataOut dataErr : List Nat)
    (hr : runs runId = some r) (hfo : fs r.stdout_path = some dataOut)
    (hfe : fs r.stderr_path = some dataErr) :
    readLogs decode fs runs runId "stdout" 0
      = some [("stdout", decode dataOut)] ∧
    readLogs decode fs runs runId "stderr" 0
      = some [("stderr", decode dataErr)] ∧
    readLogs decode fs runs runId "both" 0
      = some [("stdout", decode dataOut), ("stderr", decode dataErr)] := by
  refine ⟨?_, ?_, ?_⟩
  · rw [readLogs, hr]
    dsimp only
    rw [hfo]
    rfl
  · rw [readLogs, hr]
    dsimp only
    rw [hfe]
    rfl
  · rw [readLogs, hr]
    dsimp only
    rw [hfo, hfe]
    rfl

/-- C2 witness: concrete two-byte logs are returned whole at tail_bytes
zero under the stream selection both. -/
theorem c2_tail_zero_witness :
    readLogs asciiDecode (fun _ => some [104, 105])
      (fun _ => some (mkStartRecord "r2" "s.py" [] 0 "o" "e"))
      "r2" "both" 0
      = some [("stdout", asciiDecode [104, 105]),
          ("stderr", asciiDecode [104, 105])] :=
  (c2_tail_zero_reads_whole_file asciiDecode _ _ "r2" _ [104, 105] [104, 105]
    rfl rfl rfl).2.2

/-- C3: the watcher exit handler records the exit code and finished_at and
chooses the terminal status exactly by the stated rule: stopped when the
current status is stopping or stopped, else succeeded when the code is
zero, else failed; the chosen status is always terminal. -/
theorem c3_watch_exit_rule (r : RunRecord) (rc : Int) (now : Nat) :
    (watchExit r rc now).return_code = some rc ∧
    (watchExit r rc now).finished_at = some now ∧
    (watchExit r rc now).status =
      (if r.status = Status.stopping ∨ r.status = Status.stopped then Status.stopped
       else if rc = 0 then Status.succeeded else Status.failed) ∧
    (watchExit r rc now).status.isTerminal = true := by
  refine ⟨rfl, rfl, rfl, ?_⟩
  show Status.isTerminal
    (if r.status = Status.stopping ∨ r.status = Status.stopped then Status.stopped
     else if rc = 0 then Status.succeeded else Status.failed) = true
  by_cases h1 : r.status = Status.stopping ∨ r.status = Status.stopped
  · rw [if_pos h1]
    rfl
  · rw [if_neg h1]
    by_cases h2 : rc = 0
    · rw [if_pos h2]
      rfl
    · rw [if_neg h2]
      rfl

/-- C4: the locked entry of stop answers notFound for an unknown run id,
and a record whose status is neither running nor starting (in particular
any terminal status) is returned unchanged, a no-op. -/
theorem c4_stop_noop (r : RunRecord)
    (h : ¬ (r.status = Status.running ∨ r.status = Status.starting)) :
    stopEntry none = StopEntry.notFound ∧
    stopEntry (some r) = StopEntry.noop r := by
  refine ⟨rfl, ?_⟩
  show (if r.status = Status.running ∨ r.status = Status.starting then
      StopEntry.proceed { r with status := Status.stopping }
    else StopEntry.noop r) = StopEntry.noop r
  rw [if_neg h]

/-- C4 witness: stop on a concrete run that already exited cleanly
(status succeeded) is a no-op. -/
theorem c4_stop_noop_witness :
    stopEntry none = StopEntry.notFound ∧
    stopEntry (some (watchExit
      (spawnSuccess (mkStartRecord "r4" "s.py" [] 0 "o" "e") 7 1) 0 2)) =
    StopEntry.noop (watchExit
      (spawnSuccess (mkStartRecord "r4" "s.py" [] 0 "o" "e") 7 1) 0 2) :=
  c4_stop_noop _ (by decide)

/-- C5: the spawn failure handler of python_script_api closes only the
stdout handle and leaves the stderr handle exactly as it was (open when it
was open), while setting the record failed with the error and finished_at
and persisting it; the quant_script_api handler closes both handles.  The
claim that both handles are closed therefore fails on the
python_script_api variant. -/
theorem c5_spawn_failure_stderr_not_closed (ctx : SpawnContext)
    (err : String) (now : Nat) :
    (startSpawnFailure ctx err now).stdoutOpen = false ∧
    (startSpawnFailure ctx err now).stderrOpen = ctx.stderrOpen ∧
    (startSpawnFailure { ctx with stderrOpen := true } err now).stderrOpen = true ∧
    (startSpawnFailure ctx err now).record.status = Status.failed ∧
    (startSpawnFailure ctx err now).record.error = some err ∧
    (startSpawnFailure ctx err now).record.finished_at = some now ∧
    (startSpawnFailure ctx err now).persisted = true ∧
    (startSpawnFailureQuant ctx err now).stdoutOpen = false ∧
    (startSpawnFailureQuant ctx err now).stderrOpen = false :=
  ⟨rfl, rfl, rfl, rfl, rfl, rfl, rfl, rfl, rfl⟩

/-- C6: a successful resolve_script result lies under the canonicalized
root (segment-prefix containment) and carries the .py suffix; and a
request whose canonicalized join escapes the root (whether through
dot-dot parts, an absolute path or symlinks, all resolved away by
realpath) is answered with the not-under-root error, never resolved. -/
theorem c6_resolve_script_containment (fs : FileSystem) (root : List String)
    (sp : ReqPath) :
    (∀ out, resolve_script fs root sp = .ok out →
      (fs.realpath root).isPrefixOf out = true ∧
      pathSuffix (lastName out).data = ".py".data) ∧
    (¬ ((fs.realpath root).isPrefixOf
        (fs.realpath (if sp.absolute then sp.parts
          else fs.realpath root ++ sp.parts)) = true) →
      resolve_script fs root sp = .error ResolveError.notUnderRoot) := by
  constructor
  · intro out hout
    rw [resolve_script] at hout
    dsimp only at hout
    by_cases h1 : ¬ ((fs.realpath root).isPrefixOf
        (fs.realpath (if sp.absolute then sp.parts
          else fs.realpath root ++ sp.parts)) = true)
    · rw [if_pos h1] at hout
      exact absurd hout (fun hh => Except.noConfusion hh)
    · rw [if_neg h1] at hout
      by_cases h2 : pathSuffix (lastName (fs.realpath
          (if sp.absolute then sp.parts
            else fs.realpath root ++ sp.parts))).data ≠ (".py").data
      · rw [if_pos h2] at hout
        exact absurd hout (fun hh => Except.noConfusion hh)
      · rw [if_neg h2] at hout
        by_cases h3 : ¬ ((fs.pathExists (fs.realpath
            (if sp.absolute then sp.parts
              else fs.realpath root ++ sp.parts)) &&
            fs.isFile (fs.realpath
            (if sp.absolute then sp.parts
              else fs.realpath root ++ sp.parts))) = true)
        · rw [if_pos h3] at hout
          exact absurd hout (fun hh => Except.noConfusion hh)
        · rw [if_neg h3] at hout
          cases hout
          exact ⟨not_not.mp h1, not_not.mp h2⟩
  · intro hnp
    rw [resolve_script]
    dsimp only
    rw [if_pos hnp]

/-- C6 witness: with the identity realpath and an all-true filesystem, the
relative request a.py under root srv resolves under the root with the .py
suffix, and the absolute request etc passwd is rejected as not under the
root. -/
theorem c6_resolve_script_witness :
    ((FileSystem.mk id (fun _ => true) (fun _ => true)).realpath
        ["", "srv"]).isPrefixOf ["", "srv", "a.py"] = true ∧
    pathSuffix (lastName ["", "srv", "a.py"]).data = ".py".data ∧
    resolve_script (FileSystem.mk id (fun _ => true) (fun _ => true))
      ["", "srv"] (ReqPath.mk true ["", "etc", "passwd"])
      = .error ResolveError.notUnderRoot := by
  refine ⟨?_, ?_, ?_⟩
  · exact ((c6_resolve_script_containment
      (FileSystem.mk id (fun _ => true) (fun _ => true)) ["", "srv"]
      (ReqPath.mk false ["a.py"])).1 ["", "srv", "a.py"] (by rfl)).1
  · exact ((c6_resolve_script_containment
      (FileSystem.mk id (fun _ => true) (fun _ => true)) ["", "srv"]
      (ReqPath.mk false ["a.py"])).1 ["", "srv", "a.py"] (by rfl)).2
  · exact (c6_resolve_script_containment
      (FileSystem.mk id (fun _ => true) (fun _ => true)) ["", "srv"]
      (ReqPath.mk true ["", "etc", "passwd"])).2 (by decide)

set_option maxHeartbeats 4000000 in
/-- C7 counterexample: the round trip is not unconditional.  The payload
with claim exp equal to minus one encodes under key k, but decoding the
resulting token at clock zero fails with the expiry error instead of
returning the payload.  And tampering with a byte does not always fail:
the encoding of the payload a equal to one under key k ends in the base64
character c; replacing that final character by d (a different byte that
changes only padding bits the signature decoder drops) yields a different
token that still verifies to the same claims. -/
theorem c7_roundtrip_counterexample :
    decodeAndVerifyHs256 (encodeHs256 [("exp", Json.num (-1))] "k") "k"
      0 0 none none = .error (.jwtError "Token expired") ∧
    encodeHs256 [("a", Json.num 1)] "k" = String.mk
      ("eyJhbGciOiJIUzI1NiIsInR5cCI6IkpXVCJ9.eyJhIjoxfQ.HYfzqBpLbCOo950TeHdytWxg8UHtAmEQCW7ITVky6G".data
        ++ ['c']) ∧
    ("eyJhbGciOiJIUzI1NiIsInR5cCI6IkpXVCJ9.eyJhIjoxfQ.HYfzqBpLbCOo950TeHdytWxg8UHtAmEQCW7ITVky6G".data
        ++ ['c'])
      ≠ ("eyJhbGciOiJIUzI1NiIsInR5cCI6IkpXVCJ9.eyJhIjoxfQ.HYfzqBpLbCOo950TeHdytWxg8UHtAmEQCW7ITVky6G".data
        ++ ['d']) ∧
    decodeAndVerifyHs256 (String.mk
      ("eyJhbGciOiJIUzI1NiIsInR5cCI6IkpXVCJ9.eyJhIjoxfQ.HYfzqBpLbCOo950TeHdytWxg8UHtAmEQCW7ITVky6G".data
        ++ ['d'])) "k" 0 0 none none = .ok [("a", Json.num 1)] := by
  refine ⟨by rfl, by rfl, by decide, by rfl⟩

/-- C7 as corrected: the round trip holds conditionally: for every payload
whose JSON object is well formed and whose claims pass the exp, nbf, iss
and aud checks at the given clock, leeway and expectations, decoding the
encoded token with the same key returns exactly the payload. -/
theorem c7_roundtrip_amended (payload : List (String × Json)) (secret : String)
    (now leeway : Int) (eIss eAud : Option String)
    (hwf : jsonWF (Json.obj payload) = true)
    (hcl : claimChecks payload now leeway eIss eAud = .ok ()) :
    decodeAndVerifyHs256 (encodeHs256 payload secret) secret now leeway eIss eAud
      = .ok payload :=
  decodeEncode_ok payload secret now leeway eIss eAud hwf hcl

/-- C7 witness: the payload a equal to one with key k round-trips at clock
zero. -/
theorem c7_roundtrip_witness :
    decodeAndVerifyHs256 (encodeHs256 [("a", Json.num 1)] "k") "k" 0 0 none none
      = .ok [("a", Json.num 1)] :=
  c7_roundtrip_amended [("a", Json.num 1)] "k" 0 0 none none
    (by simp [jsonWF, jsonPairsWF, keysUniqueB]) (by rfl)

/-- C8: with leeway 30, the decoded token with integer claim exp is
accepted at clock exp plus 30 and rejected with the expiry error at clock
exp plus 31, for every integer exp and every key: the check rejects
exactly when now is greater than exp plus leeway. -/
theorem c8_exp_leeway_boundary (e : Int) (k : String) :
    decodeAndVerifyHs256 (encodeHs256 [("exp", Json.num e)] k) k
      (e + 30) 30 none none = .ok [("exp", Json.num e)] ∧
    decodeAndVerifyHs256 (encodeHs256 [("exp", Json.num e)] k) k
      (e + 31) 30 none none = .error (.jwtError "Token expired") := by
  have hwf : jsonWF (Json.obj [("exp", Json.num e)]) = true := by
    simp [jsonWF, jsonPairsWF, keysUniqueB]
  have hget : pyGet [("exp", Json.num e)] "exp" = some (Json.num e) := rfl
  have hnbf : checkNbf [("exp", Json.num e)] (e + 30) 30 = .ok () := rfl
  have hnbf2 : checkNbf [("exp", Json.num e)] (e + 31) 30 = .ok () := rfl
  have hexp1 : checkExp [("exp", Json.num e)] (e + 30) 30 = .ok () := by
    rw [checkExp, hget]
    dsimp only
    rw [show pyToInt (Json.num e) = some e from rfl]
    dsimp only
    rw [if_neg (by omega : ¬ (e + 30 > e + 30))]
  have hexp2 : checkExp [("exp", Json.num e)] (e + 31) 30
      = .error (.jwtError "Token expired") := by
    rw [checkExp, hget]
    dsimp only
    rw [show pyToInt (Json.num e) = some e from rfl]
    dsimp only
    rw [if_pos (by omega : e + 31 > e + 30)]
  have hcl1 : claimChecks [("exp", Json.num e)] (e + 30) 30 none none
      = .ok () := by
    rw [claimChecks, hexp1]
    dsimp only
    rw [hnbf]
    rfl
  have hcl2 : claimChecks [("exp", Json.num e)] (e + 31) 30 none none
      = .error (.jwtError "Token expired") := by
    rw [claimChecks, hexp2]
  exact ⟨decodeEncode_ok _ k (e + 30) 30 none none hwf hcl1,
    decodeEncode_error _ k (e + 31) 30 none none _ hwf hcl2⟩

/-- C9: after a valid token, the scope gate admits exactly when the token
scopes contain the wildcard star or every required scope; any other
outcome is the rejection with HTTP status 403.  An empty required set is
admitted by the same rule, every member of the empty set being present. -/
theorem c9_scope_gate (required : List String)
    (claims : List (String × Json)) :
    (requireScopesCheck required claims = .ok claims ↔
      ((extractScopes claims).contains "*" = true ∨
        ∀ s ∈ required, (extractScopes claims).contains s = true)) ∧
    (requireScopesCheck required claims = .ok claims ∨
      requireScopesCheck required claims = .error 403) := by
  constructor
  · rw [requireScopesCheck]
    by_cases hemp : required.isEmpty
    · rw [if_pos hemp]
      have hreq : required = [] := List.isEmpty_iff.mp hemp
      subst hreq
      constructor
      · intro _
        exact Or.inr (fun s hs => absurd hs (List.not_mem_nil s))
      · intro _
        rfl
    · rw [if_neg hemp]
      by_cases hc : ((extractScopes claims).contains "*" ||
          required.all (fun s => (extractScopes claims).contains s)) = true
      · rw [if_pos hc]
        constructor
        · intro _
          rcases Bool.or_eq_true_iff.mp hc with h | h
          · exact Or.inl h
          · exact Or.inr (fun s hs => List.all_eq_true.mp h s hs)
        · intro _
          rfl
      · rw [if_neg hc]
        constructor
        · intro habs
          exact absurd habs (fun hh => Except.noConfusion hh)
        · intro hor
          exfalso
          apply hc
          rcases hor with h | h
          · exact Bool.or_eq_true_iff.mpr (Or.inl h)
          · exact Bool.or_eq_true_iff.mpr
              (Or.inr (List.all_eq_true.mpr (fun s hs => h s hs)))
  · rw [requireScopesCheck]
    by_cases hemp : required.isEmpty
    · rw [if_pos hemp]
      exact Or.inl rfl
    · rw [if_neg hemp]
      by_cases hc : ((extractScopes claims).contains "*" ||
          required.all (fun s => (extractScopes claims).contains s)) = true
      · rw [if_pos hc]
        exact Or.inl rfl
      · rw [if_neg hc]
        exact Or.inr rfl

/-- C9 witness: the wildcard scope admits a concrete required scope. -/
theorem c9_scope_gate_witness :
    requireScopesCheck ["runs:read"] [("scopes", Json.arr [Json.str "*"])]
      = .ok [("scopes", Json.arr [Json.str "*"])] :=
  (c9_scope_gate ["runs:read"] [("scopes", Json.arr [Json.str "*"])]).1.mpr
    (Or.inl (by decide))

/-- C10: read_logs is total on known runs: it returns a dict for every
stream and tail_bytes value; a nonpositive tail_bytes behaves as zero (the
clamp max of zero and tail_bytes); a missing or unreadable selected file
contributes the empty string; a stream name other than stdout, stderr and
both selects nothing and yields the empty dict. -/
theorem c10_read_logs_total (decode : List Nat → String) (fs : FileStore)
    (runs : String → Option RunRecord) (runId : String) (stream : String)
    (tb : Int) (r : RunRecord) (hr : runs runId = some r) :
    (∃ d, readLogs decode fs runs runId stream tb = some d) ∧
    (tb ≤ 0 → readLogs decode fs runs runId stream tb
       = readLogs decode fs runs runId stream 0) ∧
    (fs r.stdout_path = none →
      readLogs decode fs runs runId "stdout" tb = some [("stdout", "")]) ∧
    (stream ≠ "stdout" → stream ≠ "stderr" → stream ≠ "both" →
      readLogs decode fs runs runId stream tb = some []) := by
  refine ⟨⟨(if stream = "stdout" ∨ stream = "both" then
      [("stdout", tailTextFile decode (fs r.stdout_path) tb.toNat)] else []) ++
    (if stream = "stderr" ∨ stream = "both" then
      [("stderr", tailTextFile decode (fs r.stderr_path) tb.toNat)] else []),
    ?_⟩, ?_, ?_, ?_⟩
  · rw [readLogs, hr]
  · intro hneg
    have h0 : tb.toNat = (0 : Int).toNat := by omega
    rw [readLogs, readLogs, hr]
    dsimp only
    rw [h0]
  · intro hf
    rw [readLogs, hr]
    dsimp only
    rw [hf]
    rfl
  · intro h1 h2 h3
    rw [readLogs, hr]
    dsimp only
    rw [if_neg (fun hh => hh.elim h1 h3), if_neg (fun hh => hh.elim h2 h3)]
    rfl

/-- C10 witness: a concrete unknown stream name on a known run with no
log files yields the empty dict. -/
theorem c10_read_logs_total_witness :
    readLogs asciiDecode (fun _ => none)
      (fun _ => some (mkStartRecord "rw" "s.py" [] 0 "o" "e"))
      "rw" "metrics" 7 = some [] :=
  (c10_read_logs_total asciiDecode (fun _ => none)
      (fun _ => some (mkStartRecord "rw" "s.py" [] 0 "o" "e"))
      "rw" "metrics" 7 (mkStartRecord "rw" "s.py" [] 0 "o" "e") rfl).2.2.2
    (by decide) (by decide) (by decide)

end ScriptApi
